import Mathlib

/-!
Formal model of the PolySCIP weight space polyhedron skeleton
(`applications/PolySCIP/src/Skeleton_new.cpp`).

The skeleton maintains the 1-skeleton graph of the lifted weight space
polyhedron: a facet store, a graph of weight space vertices, an untested
node set, and an incremental update algorithm (`addFacet`) that runs a
flood fill over obsolete nodes and rebuilds the cut boundary.

Real-valued data (`SCIP_Real`) is modelled by `ℚ`.  Graph nodes are
natural-number identifiers (lemon `ListGraph::Node`), `lemon::INVALID` is
`Option.none`, and the `vertex_map_` is a total function read only at live
node identifiers.
-/

set_option maxHeartbeats 1000000

/-- A vertex of the weight space polyhedron.  Modelled from the spec: the
class `WeightSpaceVertex` is declared in headers absent from the sources,
so its data is taken from spec §3: a length-p weight vector (exclusively
owned), the weighted objective value, and the set of defining facet
indices into the facet store. -/
structure WeightSpaceVertex where
  weight : List ℚ
  wov : ℚ
  facets : Finset ℕ
  deriving DecidableEq

instance : Inhabited WeightSpaceVertex := ⟨⟨[], 0, ∅⟩⟩

/-- The skeleton state (class `Skeleton`): number of objectives `nObjs_`,
the SCIP comparison tolerance (modelled from the spec and `set.h`'s
epsilon-comparison declarations), the facet store `facets_` (facet vectors
of length `p + 1`), the graph nodes and edges of the lemon `ListGraph`,
the node-to-vertex map `vertex_map_`, the untested node set
`untested_nodes_`, `last_returned_node_` (`none` is `lemon::INVALID`), the
next fresh node identifier, and the statistics `n_new_nodes_` /
`n_proc_nodes_`. -/
structure Skeleton where
  p : ℕ
  eps : ℚ
  facets : List (List ℚ)
  nodes : List ℕ
  edges : List (ℕ × ℕ)
  vmap : ℕ → WeightSpaceVertex
  untested : Finset ℕ
  lastReturned : Option ℕ
  nextId : ℕ
  nNew : ℕ
  nProc : ℕ

/-- The left hand side value of a vertex with regard to a facet inequality,
as computed by `Skeleton::isMakingObsolete`:
`facet[nObjs_] * weightedObjectiveValue + Σ_{j<nObjs_} weight[j] * facet[j]`. -/
def lhsVal (p : ℕ) (f : List ℚ) (v : WeightSpaceVertex) : ℚ :=
  f.getD p 0 * v.wov + ∑ j ∈ Finset.range p, v.weight.getD j 0 * f.getD j 0

/-- `Skeleton::isMakingObsolete`: whether the facet makes the vertex
obsolete.  Strict mode compares `lhs < 0` exactly; non-strict mode is
`SCIPisLT(scip_, lhs, 0.0)`, modelled (per `set.h`'s `SCIPsetIsL`
documentation, the implementation being outside the sources) as `lhs`
being more than epsilon below zero. -/
def isMakingObsolete (p : ℕ) (eps : ℚ) (f : List ℚ) (v : WeightSpaceVertex)
    (strict : Bool) : Bool :=
  if strict then decide (lhsVal p f v < 0) else decide (lhsVal p f v < -eps)

/-- `WeightSpaceVertex::isNeighbour`.  Modelled from the spec (§4.3), the
class being absent from the sources: two vertices are combinatorially
adjacent iff they share exactly `p - 1` defining facets. -/
def isNeighbour (p : ℕ) (a b : WeightSpaceVertex) : Bool :=
  decide ((a.facets ∩ b.facets).card = p - 1)

/-- `Skeleton::graphIsValid`: every graph edge must connect two vertices
that pass the adjacency test. -/
def Skeleton.graphIsValid (s : Skeleton) : Bool :=
  s.edges.all (fun e => isNeighbour s.p (s.vmap e.1) (s.vmap e.2))

/-- `Skeleton::createFacetFromCost`: copy the cost vector and append the
objective coefficient `-1`. -/
def createFacetFromCost (c : List ℚ) : List ℚ := c ++ [-1]

/-- `Skeleton::createFacetFromPoint`: a `(p+1)`-vector filled with `-1`
whose first entries are overwritten by the point (the source asserts
`point->size() == nObjs_`). -/
def createFacetFromPoint (p : ℕ) (pt : List ℚ) : List ℚ :=
  pt ++ List.replicate (p + 1 - pt.length) (-1)

/-- `Skeleton::createFacetFromRay`: a `(p+1)`-vector filled with `0` whose
first entries are overwritten by the ray. -/
def createFacetFromRay (p : ℕ) (r : List ℚ) : List ℚ :=
  r ++ List.replicate (p + 1 - r.length) 0

/-- The unit weight vector `e_i` of length `p`. -/
def unitWeight (p i : ℕ) : List ℚ :=
  (List.range p).map (fun j => if j = i then 1 else 0)

/-- The facet store built by `Skeleton::createInitialFacetsAndWeightSpaceVerts`:
`p` boundary facets (unit weight coefficients, scalar `0.`) followed by the
first nondominated-point facet `Skeleton::Facet(w_coeffs, 1.)`.  The
`Facet` record type is declared in the missing header; per spec §3 a facet
is its `p` weight coefficients followed by the objective coefficient, so
`Facet(vals, c)` is flattened to `vals ++ [c]`. -/
def initFacets (p : ℕ) (pt : List ℚ) : List (List ℚ) :=
  (List.range p).map (fun i => unitWeight p i ++ [0]) ++ [pt ++ [1]]

/-- The initial corner vertex at unit weight index `i`, per
`createInitialFacetsAndWeightSpaceVerts`: defining facet indices are all
facet store indices except `i`, the weight is `e_i`, and the weighted
objective value is the `i`-th entry of the first nondominated point (the
source's `nondom_point[current_index]` read with its evident intent
`(*nondom_point)[current_index]`, as the parallel `createCorner` path
does). -/
def initVertex (p : ℕ) (pt : List ℚ) (i : ℕ) : WeightSpaceVertex :=
  ⟨unitWeight p i, pt.getD i 0, (Finset.range (p + 1)).erase i⟩

/-- The skeleton produced by the constructor path
(`createInitialFacetsAndWeightSpaceVerts` followed by
`createInitialWeightSpacePolyhedron`): `p` corner nodes `0..p-1`, all
untested except the unit-weight node when the first point came from a unit
weight, and the edge set produced by the source's edge-construction loop,
whose body is empty. -/
def initSkeleton (p : ℕ) (eps : ℚ) (pt : List ℚ) (fromUnit : Bool)
    (uidx : ℕ) : Skeleton :=
  { p := p, eps := eps, facets := initFacets p pt,
    nodes := List.range p, edges := [],
    vmap := fun n => if n < p then initVertex p pt n else default,
    untested := if fromUnit then (Finset.range p).erase uidx else Finset.range p,
    lastReturned := none, nextId := p, nNew := 0, nProc := 0 }

/-- `Skeleton::hasNextWeight`: whether the untested node set is non-empty. -/
def Skeleton.hasNextWeight (s : Skeleton) : Bool := decide s.untested.Nonempty

/-- `Skeleton::nextWeight`: asserts that an untested node remains (the
failed assertion is modelled as `none`), removes the first element of the
ordered untested set (`*untested_nodes_.begin()`, the minimum node
identifier), records it as `last_returned_node_`, and returns its weight. -/
def Skeleton.nextWeight (s : Skeleton) : Option (List ℚ × Skeleton) :=
  if h : s.untested.Nonempty then
    some ((s.vmap (s.untested.min' h)).weight,
      { s with untested := s.untested.erase (s.untested.min' h),
               lastReturned := some (s.untested.min' h) })
  else none

/-- State of the flood fill inside `Skeleton::addFacet`: the obsolete node
set `obsolete_nodes_`, the FIFO work queue `unscanned_nodes_`, the cut
edge list `cut_edges_`, the untested node set (mutated during the scan),
and the processed-node counter `n_proc_nodes_`. -/
structure ScanState where
  obs : Finset ℕ
  queue : List ℕ
  cuts : List (ℕ × ℕ)
  unt : Finset ℕ
  nproc : ℕ
  deriving DecidableEq

/-- `graph_.oppositeNode(n, e)` for an edge incident to `n`. -/
def oppositeNode (n : ℕ) (e : ℕ × ℕ) : ℕ := if e.1 = n then e.2 else e.1

/-- The incident edges of node `n` (lemon `IncEdgeIt`), in edge list order. -/
def incidentEdges (edges : List (ℕ × ℕ)) (n : ℕ) : List (ℕ × ℕ) :=
  edges.filter (fun e => decide (e.1 = n ∨ e.2 = n))

/-- One iteration of the loop body of `Skeleton::scanNode`: if the
neighbour opposite the incident edge is not yet marked obsolete, test it
with the strict obsolescence test; if obsolete, mark it, enqueue it and
remove it from the untested set; otherwise record the edge as a cut edge. -/
def scanStep (p : ℕ) (eps : ℚ) (f : List ℚ) (vm : ℕ → WeightSpaceVertex)
    (n : ℕ) (st : ScanState) (e : ℕ × ℕ) : ScanState :=
  let nb := oppositeNode n e
  if nb ∈ st.obs then st
  else if isMakingObsolete p eps f (vm nb) true then
    { st with obs := insert nb st.obs, queue := st.queue ++ [nb],
              unt := st.unt.erase nb }
  else { st with cuts := st.cuts ++ [e] }

/-- `Skeleton::scanNode`: iterate over all edges incident to the obsolete
node. -/
def scanNode (p : ℕ) (eps : ℚ) (f : List ℚ) (vm : ℕ → WeightSpaceVertex)
    (edges : List (ℕ × ℕ)) (n : ℕ) (st : ScanState) : ScanState :=
  (incidentEdges edges n).foldl (scanStep p eps f vm n) st

/-- The while-loop of `Skeleton::addFacet`: while the work queue is
non-empty, pop a node, scan it and count it as processed.  The fuel
argument bounds the number of iterations; `addFacet` passes one more than
the number of graph nodes, which the loop never exhausts on well-formed
states. -/
def bfsLoop (p : ℕ) (eps : ℚ) (f : List ℚ) (vm : ℕ → WeightSpaceVertex)
    (edges : List (ℕ × ℕ)) : ℕ → ScanState → ScanState
  | 0, st => st
  | fuel + 1, st =>
    match st.queue with
    | [] => st
    | n :: q =>
      bfsLoop p eps f vm edges fuel
        (scanNode p eps f vm edges n { st with queue := q, nproc := st.nproc + 1 })

/-- The flood fill phase of `Skeleton::addFacet` run from a seed node:
obsolete set and queue seeded with `last_returned_node_`, which is first
erased from the untested set. -/
def Skeleton.runScan (s : Skeleton) (f : List ℚ) (seed : ℕ) : ScanState :=
  bfsLoop s.p s.eps f s.vmap s.edges (s.nodes.length + 1)
    ⟨{seed}, [seed], [], s.untested.erase seed, 0⟩

/-- `Skeleton::addNode`: create a fresh graph node married to the vertex;
when `markUntested` it joins the untested set and bumps `n_new_nodes_`. -/
def Skeleton.addNode (s : Skeleton) (v : WeightSpaceVertex)
    (markUntested : Bool) : ℕ × Skeleton :=
  (s.nextId,
   { s with nodes := s.nodes ++ [s.nextId],
            vmap := Function.update s.vmap s.nextId v,
            untested := if markUntested then insert s.nextId s.untested else s.untested,
            nNew := if markUntested then s.nNew + 1 else s.nNew,
            nextId := s.nextId + 1 })

/-- Working state of `Skeleton::updateGraph`: the evolving skeleton plus
the `new_vertices_` list of (node, vertex) pairs. -/
structure UpdState where
  sk : Skeleton
  newVerts : List (ℕ × WeightSpaceVertex)

/-- The branch at the top of `Skeleton::makeIntermediateVertex` that finds
out which end of a cut edge is the obsolete node: returns (adjacent node,
obsolete node). -/
def cutSplit (O : Finset ℕ) (e : ℕ × ℕ) : ℕ × ℕ :=
  if e.1 ∉ O then (e.1, e.2) else (e.2, e.1)

/-- The intermediate vertex `WeightSpaceVertex(obsolete, adjacent, facet)`.
Modelled from the spec, the class being absent from the sources: per §4.6
the defining facets are the two endpoints' shared facets plus the new cut,
and per §3 the defining facets hold with equality at the vertex, so weight
and weighted objective value are the convex combination of the endpoints
at which the new facet's left hand side vanishes. -/
def combineVertices (p : ℕ) (f : List ℚ) (newIdx : ℕ)
    (vObs vAdj : WeightSpaceVertex) : WeightSpaceVertex :=
  let a := lhsVal p f vObs
  let b := lhsVal p f vAdj
  let h := b / (b - a)
  ⟨(List.range p).map (fun j => h * vObs.weight.getD j 0 + (1 - h) * vAdj.weight.getD j 0),
   h * vObs.wov + (1 - h) * vAdj.wov,
   (vObs.facets ∩ vAdj.facets) ∪ {newIdx}⟩

/-- `Skeleton::makeIntermediateVertex`: create the intermediate vertex for
a cut edge, add a fresh untested node for it, connect it to the surviving
endpoint, and record it in `new_vertices_`. -/
def makeIntermediateVertex (p : ℕ) (f : List ℚ) (newIdx : ℕ) (O : Finset ℕ)
    (g : UpdState) (e : ℕ × ℕ) : UpdState :=
  let an := (cutSplit O e).1
  let obn := (cutSplit O e).2
  let v := combineVertices p f newIdx (g.sk.vmap obn) (g.sk.vmap an)
  let r := g.sk.addNode v true
  { sk := { r.2 with edges := r.2.edges ++ [(r.1, an)] },
    newVerts := g.newVerts ++ [(r.1, v)] }

/-- `WeightSpaceVertex::isCorner`.  Modelled from the spec's glossary, the
class being absent from the sources: a corner is an axis-aligned extreme
weight, i.e. its weight is a unit vector. -/
def isCorner (p : ℕ) (v : WeightSpaceVertex) : Bool :=
  (List.range p).any (fun i => v.weight == unitWeight p i)

/-- `WeightSpaceVertex::updateFacet`.  Modelled from the spec, the class
being absent from the sources: per §3/§4.6 the corner swaps the single
defining facet it lost for the new cutting facet, keeping its weight.  The
facets that stay are the ones still tight at the unchanged corner weight,
so the lost facet is the corner's previous (highest-indexed) cutting
facet, and the weighted objective value is recomputed so that the new
facet holds with equality (possible whenever the new facet's objective
coefficient is nonzero). -/
def updateFacet (p : ℕ) (newIdx : ℕ) (f : List ℚ) (v : WeightSpaceVertex) :
    WeightSpaceVertex :=
  ⟨v.weight,
   if f.getD p 0 = 0 then v.wov
   else -(∑ j ∈ Finset.range p, f.getD j 0 * v.weight.getD j 0) / f.getD p 0,
   insert newIdx (v.facets.erase (v.facets.max.unbot' 0))⟩

/-- The loop body of the corner pass of `Skeleton::createNewVertices`
combined with `Skeleton::updateCorner`: an obsolete corner vertex keeps
living, is re-added to the graph under a fresh node (untested unless its
old node is the seed `last_returned_node_`), has its facet set mutated in
place, and is recorded in `new_vertices_`. -/
def updateCornerStep (p : ℕ) (f : List ℚ) (newIdx : ℕ) (seed : ℕ)
    (g : UpdState) (o : ℕ) : UpdState :=
  if isCorner p (g.sk.vmap o) then
    let mark := decide (o ≠ seed)
    let v := updateFacet p newIdx f (g.sk.vmap o)
    let r := g.sk.addNode v mark
    { sk := r.2, newVerts := g.newVerts ++ [(r.1, v)] }
  else g

/-- The obsolete node set in increasing identifier order: iteration over
the `std::set` `obsolete_nodes_` visits identifiers in increasing order,
and on every well-formed state all node identifiers lie below the
skeleton's fresh-identifier counter, so the enumeration below agrees with
it. -/
def obsList (bound : ℕ) (O : Finset ℕ) : List ℕ :=
  (List.range bound).filter (fun o => decide (o ∈ O))

lemma mem_obsList {bound : ℕ} {O : Finset ℕ} {o : ℕ} :
    o ∈ obsList bound O ↔ o < bound ∧ o ∈ O := by
  unfold obsList
  rw [List.mem_filter, List.mem_range]
  simp

/-- `Skeleton::createNewVertices`: first one intermediate vertex per cut
edge, then the corner pass over the obsolete node set (`std::set`
iteration order is increasing node identifier). -/
def createNewVertices (p : ℕ) (f : List ℚ) (newIdx : ℕ) (seed : ℕ)
    (O : Finset ℕ) (cuts : List (ℕ × ℕ)) (g : UpdState) : UpdState :=
  ((obsList g.sk.nextId O).foldl (updateCornerStep p f newIdx seed)
    (cuts.foldl (makeIntermediateVertex p f newIdx O) g))

/-- `Skeleton::createNewEdges`: for every pair of new vertices appearing
earlier/later in `new_vertices_`, add an edge when the adjacency test
passes. -/
def createNewEdgesAux (p : ℕ) :
    List (ℕ × WeightSpaceVertex) → List (ℕ × WeightSpaceVertex) → List (ℕ × ℕ)
  | _, [] => []
  | prev, q :: rest =>
    (prev.filter (fun pv => isNeighbour p pv.2 q.2)).map (fun pv => (pv.1, q.1))
      ++ createNewEdgesAux p (prev ++ [q]) rest

/-- `Skeleton::addFacet`: append the facet to the store, reset the
statistics, erase the seed (`last_returned_node_`) from the untested set,
flood-fill the obsolete region, then apply `Skeleton::updateGraph`: create
the new vertices, create the new edges, and erase every obsolete node
together with its incident edges. -/
def Skeleton.addFacet (s : Skeleton) (f : List ℚ) (seed : ℕ) : Skeleton :=
  let newIdx := s.facets.length
  let st := s.runScan f seed
  let s1 : Skeleton :=
    { s with facets := s.facets ++ [f], untested := st.unt, nNew := 0, nProc := st.nproc }
  let g := createNewVertices s.p f newIdx seed st.obs st.cuts ⟨s1, []⟩
  let s2 : Skeleton := { g.sk with edges := g.sk.edges ++ createNewEdgesAux s.p [] g.newVerts }
  { s2 with nodes := s2.nodes.filter (fun n => decide (n ∉ st.obs)),
            edges := s2.edges.filter (fun e => decide (e.1 ∉ st.obs) && decide (e.2 ∉ st.obs)) }

/-- `Skeleton::findObsoleteNode`: the first graph node whose vertex the
facet makes obsolete, or `INVALID`.  The defaulted `strict` argument of
`isMakingObsolete` lives in the missing header; modelled from the spec
(§4.5), the externally visible decision uses the tolerant test. -/
def Skeleton.findObsoleteNode (s : Skeleton) (f : List ℚ) : Option ℕ :=
  s.nodes.find? (fun n => isMakingObsolete s.p s.eps f (s.vmap n) false)

/-- `Skeleton::isExtremalThorough`: build the candidate facet, set
`last_returned_node_` to the first node the facet makes obsolete (or
`INVALID`), re-test that node with the tolerant test; on success run
`addFacet`, otherwise record the statistics and discard the facet. -/
def Skeleton.isExtremalThorough (s : Skeleton) (c : List ℚ) : Bool × Skeleton :=
  let f := createFacetFromCost c
  match s.findObsoleteNode f with
  | some n =>
    if isMakingObsolete s.p s.eps f (s.vmap n) false then
      (true, Skeleton.addFacet { s with lastReturned := some n } f n)
    else (false, { s with lastReturned := some n, nNew := 0, nProc := 1 })
  | none => (false, { s with lastReturned := none, nNew := 0, nProc := 1 })

/-- The coherent core of `Skeleton::updateWeightSpacePolyhedron` (the
is-extremal fast path): build the candidate facet, test it with the
tolerant test against `last_returned_node_`'s vertex only, run `addFacet`
on success, otherwise record statistics and discard the facet.  Reading
`vertex_map_[last_returned_node_]` with no last returned node is a
precondition violation, modelled as `none`. -/
def Skeleton.isExtremal (s : Skeleton) (c : List ℚ) : Option (Bool × Skeleton) :=
  s.lastReturned.map (fun n =>
    let f := createFacetFromCost c
    if isMakingObsolete s.p s.eps f (s.vmap n) false then (true, s.addFacet f n)
    else (false, { s with nNew := 0, nProc := 1 }))

/-- `Skeleton::addPrimalRay`: build the ray facet and run `addFacet`
unconditionally, seeded from `last_returned_node_` (a precondition
violation when there is none, modelled as `none`). -/
def Skeleton.addPrimalRay (s : Skeleton) (r : List ℚ) : Option Skeleton :=
  s.lastReturned.map (fun n => s.addFacet (createFacetFromRay s.p r) n)

/-- `Skeleton::addPrimalRayThorough`: build the ray facet, set
`last_returned_node_` to the first node it makes obsolete, and run
`addFacet` only when such a node exists. -/
def Skeleton.addPrimalRayThorough (s : Skeleton) (r : List ℚ) : Skeleton :=
  let f := createFacetFromRay s.p r
  match s.findObsoleteNode f with
  | some n => Skeleton.addFacet { s with lastReturned := some n } f n
  | none => { s with lastReturned := none }

/-- Well-formedness invariant of a skeleton state: edge endpoints are
graph nodes, every edge passes the adjacency test, every live vertex's
defining facet indices point into the facet store, node identifiers are
below the fresh-identifier counter, and untested nodes are graph nodes. -/
def SkelInv (s : Skeleton) : Prop :=
  (∀ e ∈ s.edges, e.1 ∈ s.nodes ∧ e.2 ∈ s.nodes) ∧
  (∀ e ∈ s.edges, isNeighbour s.p (s.vmap e.1) (s.vmap e.2) = true) ∧
  (∀ n ∈ s.nodes, (s.vmap n).facets ⊆ Finset.range s.facets.length) ∧
  (∀ n ∈ s.nodes, n < s.nextId) ∧
  (∀ u ∈ s.untested, u ∈ s.nodes)

instance (s : Skeleton) : Decidable (SkelInv s) := by
  unfold SkelInv; infer_instance

/-- A small concrete two-objective skeleton: the weight space simplex after
a first nondominated point `(3, 5)`, with both corners and the edge
between them. -/
def demoVertex0 : WeightSpaceVertex := ⟨[1, 0], 3, {1, 2}⟩

def demoVertex1 : WeightSpaceVertex := ⟨[0, 1], 5, {0, 2}⟩

def demoSkeleton : Skeleton :=
  { p := 2, eps := 1, facets := [[1, 0, 0], [0, 1, 0], [3, 5, -1]],
    nodes := [0, 1], edges := [(0, 1)],
    vmap := fun n => if n = 0 then demoVertex0 else if n = 1 then demoVertex1 else default,
    untested := {0, 1}, lastReturned := some 0,
    nextId := 2, nNew := 0, nProc := 0 }

/-! ### Generic fold field-preservation helpers -/

lemma foldl_preserves {β γ : Type} (pi : UpdState → γ) (step : UpdState → β → UpdState)
    (hstep : ∀ g b, pi (step g b) = pi g) :
    ∀ (l : List β) (g : UpdState), pi (l.foldl step g) = pi g := by
  intro l
  induction l with
  | nil => intro g; rfl
  | cons b t ih => intro g; rw [List.foldl_cons, ih, hstep]

lemma makeIntermediateVertex_facets (p : ℕ) (f : List ℚ) (i : ℕ) (O : Finset ℕ)
    (g : UpdState) (e : ℕ × ℕ) :
    (makeIntermediateVertex p f i O g e).sk.facets = g.sk.facets := rfl

lemma updateCornerStep_facets (p : ℕ) (f : List ℚ) (i seed : ℕ)
    (g : UpdState) (o : ℕ) :
    (updateCornerStep p f i seed g o).sk.facets = g.sk.facets := by
  unfold updateCornerStep
  split <;> rfl

lemma addFacet_facets (s : Skeleton) (f : List ℚ) (seed : ℕ) :
    (s.addFacet f seed).facets = s.facets ++ [f] := by
  unfold Skeleton.addFacet createNewVertices
  rw [foldl_preserves (fun g => g.sk.facets) _ (updateCornerStep_facets s.p f s.facets.length seed),
      foldl_preserves (fun g => g.sk.facets) _ (makeIntermediateVertex_facets s.p f s.facets.length _)]

/-! ### Claim C4: the obsolescence test -/

/-- C4: for every facet `f` and vertex `v`, `isMakingObsolete` computes
`lhs = f[p] * weighted_objective_value + Σ_{j<p} f[j] * weight[j]` and
returns `lhs < 0` exactly in strict mode, and `lhs < 0` beyond the fixed
numeric tolerance in non-strict mode.  The test is a pure function of the
facet and the vertex: it takes no skeleton state and returns none, so it
has no side effects. -/
theorem isMakingObsolete_spec (p : ℕ) (eps : ℚ) (f : List ℚ)
    (v : WeightSpaceVertex) :
    (isMakingObsolete p eps f v true = true ↔
      f.getD p 0 * v.wov + ∑ j ∈ Finset.range p, f.getD j 0 * v.weight.getD j 0 < 0) ∧
    (isMakingObsolete p eps f v false = true ↔
      f.getD p 0 * v.wov + ∑ j ∈ Finset.range p, f.getD j 0 * v.weight.getD j 0 < -eps) := by
  have hl : lhsVal p f v
      = f.getD p 0 * v.wov + ∑ j ∈ Finset.range p, f.getD j 0 * v.weight.getD j 0 := by
    unfold lhsVal
    congr 1
    exact Finset.sum_congr rfl (fun j _ => mul_comm _ _)
  constructor
  · rw [show isMakingObsolete p eps f v true = decide (lhsVal p f v < 0) from rfl,
        decide_eq_true_eq, hl]
  · rw [show isMakingObsolete p eps f v false = decide (lhsVal p f v < -eps) from rfl,
        decide_eq_true_eq, hl]

/-! ### Claim C7: facets built from points carry objective coefficient −1 -/

/-- C7: a facet built from a candidate point has the point as its first
`p` coefficients and `−1` as its objective coefficient — this holds for
`createFacetFromCost` (used by `isExtremal` / `isExtremalThorough`) and
for `createFacetFromPoint`.  In contrast, the point facet stored by the
refactored initialization path (`createInitialFacetsAndWeightSpaceVerts`)
carries scalar `+1`, diverging from the claim and from the same file's
other point-facet builders. -/
theorem pointFacet_objective_coefficient
    (c : List ℚ) (p : ℕ) (pt : List ℚ) (hpt : pt.length = p) :
    createFacetFromCost c = c ++ [-1] ∧
    (createFacetFromCost c).getD c.length 0 = -1 ∧
    createFacetFromPoint p pt = pt ++ [-1] ∧
    (createFacetFromPoint p pt).getD p 0 = -1 ∧
    (initFacets p pt).getD p [] = pt ++ [1] ∧
    ((initFacets p pt).getD p []).getD p 0 = 1 := by
  have h1 : createFacetFromPoint p pt = pt ++ [-1] := by
    unfold createFacetFromPoint
    rw [hpt]
    simp
  have h2 : (initFacets p pt).getD p [] = pt ++ [1] := by
    unfold initFacets
    rw [List.getD_eq_getElem?_getD, List.getElem?_append_right (by simp)]
    simp
  refine ⟨rfl, ?_, h1, ?_, h2, ?_⟩
  · unfold createFacetFromCost
    rw [List.getD_eq_getElem?_getD, List.getElem?_append_right (by simp)]
    simp
  · rw [h1, List.getD_eq_getElem?_getD, List.getElem?_append_right (by simp [hpt]),
        hpt]
    simp
  · rw [h2, List.getD_eq_getElem?_getD, List.getElem?_append_right (by simp [hpt]),
        hpt]
    simp

/-- Witness for C7 at the concrete first point `(3, 5)` with two
objectives. -/
theorem pointFacet_objective_coefficient_witness :
    ([3, 5] : List ℚ).length = 2 ∧
    (createFacetFromCost [3, 5] = [3, 5, -1] ∧
      createFacetFromPoint 2 [3, 5] = [3, 5, -1] ∧
      (initFacets 2 [3, 5]).getD 2 [] = [3, 5, 1]) := by
  refine ⟨by decide, ?_, ?_, ?_⟩
  · exact (pointFacet_objective_coefficient [3, 5] 2 [3, 5] (by decide)).1
  · rw [(pointFacet_objective_coefficient [3, 5] 2 [3, 5] (by decide)).2.2.1]
    decide
  · rw [(pointFacet_objective_coefficient [3, 5] 2 [3, 5] (by decide)).2.2.2.2.1]
    decide

/-! ### Claim C8: initialization -/

/-- C8: evaluating the constructor path at the boundary scenario (first
point `(3, 5)`, two objectives, originating unit-weight index `0`
supplied).  The two corner vertices are correct — weights `(1,0)` and
`(0,1)`, weighted objective values `3` and `5`, defining facets all store
indices but the own axis — and the untested set correctly omits the
originating corner; but the graph contains no edge at all, because the
edge-construction loop of `createInitialWeightSpacePolyhedron` has an
empty body, contradicting the claim (and the function's own doc comment,
which promises a complete graph on the corners). -/
theorem initSkeleton_missing_edges :
    (initSkeleton 2 1 [3, 5] true 0).nodes = [0, 1] ∧
    (initSkeleton 2 1 [3, 5] true 0).vmap 0 = ⟨[1, 0], 3, {1, 2}⟩ ∧
    (initSkeleton 2 1 [3, 5] true 0).vmap 1 = ⟨[0, 1], 5, {0, 2}⟩ ∧
    (initSkeleton 2 1 [3, 5] true 0).untested = {1} ∧
    (initSkeleton 2 1 [3, 5] true 0).edges = [] := by
  refine ⟨rfl, ?_, ?_, by decide, rfl⟩ <;> decide

/-! ### Claim C9: nextWeight -/

/-- C9: whenever the untested set is non-empty, `nextWeight` removes
exactly one element from it (its minimum, `*untested_nodes_.begin()`),
records it as `last_returned_node_`, and returns that vertex's weight;
when the untested set is empty the assertion fires, modelled as the
contract-violation result `none`. -/
theorem nextWeight_spec (s : Skeleton) :
    (∀ h : s.untested.Nonempty,
      s.nextWeight = some ((s.vmap (s.untested.min' h)).weight,
        { s with untested := s.untested.erase (s.untested.min' h),
                 lastReturned := some (s.untested.min' h) }) ∧
      s.untested.min' h ∈ s.untested ∧
      (s.untested.erase (s.untested.min' h)).card + 1 = s.untested.card) ∧
    (s.untested = ∅ → s.nextWeight = none) := by
  constructor
  · intro h
    refine ⟨?_, s.untested.min'_mem h, Finset.card_erase_add_one (s.untested.min'_mem h)⟩
    unfold Skeleton.nextWeight
    rw [dif_pos h]
  · intro h
    unfold Skeleton.nextWeight
    rw [dif_neg]
    simp [h]

/-- The demo skeleton has an untested node. -/
theorem demoSkeleton_untested_nonempty : demoSkeleton.untested.Nonempty := by decide

/-- Witness for C9 on the demo skeleton. -/
theorem nextWeight_spec_witness :
    demoSkeleton.nextWeight = some
      ((demoSkeleton.vmap (demoSkeleton.untested.min' demoSkeleton_untested_nonempty)).weight,
        { demoSkeleton with
            untested := demoSkeleton.untested.erase
              (demoSkeleton.untested.min' demoSkeleton_untested_nonempty),
            lastReturned := some (demoSkeleton.untested.min' demoSkeleton_untested_nonempty) }) ∧
    demoSkeleton.untested.min' demoSkeleton_untested_nonempty ∈ demoSkeleton.untested :=
  ⟨((nextWeight_spec demoSkeleton).1 demoSkeleton_untested_nonempty).1,
   ((nextWeight_spec demoSkeleton).1 demoSkeleton_untested_nonempty).2.1⟩

/-! ### Claim C5: isExtremalThorough -/

lemma find?_split {α : Type} (pr : α → Bool) :
    ∀ (l : List α) (a : α), l.find? pr = some a →
      ∃ l₁ l₂, l = l₁ ++ a :: l₂ ∧ ∀ x ∈ l₁, pr x = false := by
  intro l
  induction l with
  | nil => intro a h; simp at h
  | cons b t ih =>
    intro a h
    by_cases hb : pr b = true
    · rw [List.find?_cons_of_pos _ hb] at h
      exact ⟨[], t, by simp [Option.some_injective _ h], by simp⟩
    · rw [List.find?_cons_of_neg _ hb] at h
      obtain ⟨l₁, l₂, hsplit, hfail⟩ := ih a h
      refine ⟨b :: l₁, l₂, by simp [hsplit], ?_⟩
      intro x hx
      rcases List.mem_cons.mp hx with hx | hx
      · simpa [hx] using hb
      · exact hfail x hx

/-- C5: `isExtremalThorough` scans the whole graph and takes the first
node whose vertex violates the candidate facet under the tolerant test.
When such a node exists, that node is a graph node, every node listed
before it does not violate the facet, the result is `true`, and the state
is the one produced by the update algorithm `addFacet` seeded there.  When
no node violates the facet, the result is `false`, no node of the graph is
obsolete for the candidate, and the candidate facet is discarded: the
facet store (and the graph) are unchanged. -/
theorem isExtremalThorough_spec (s : Skeleton) (c : List ℚ) :
    (∀ n, s.findObsoleteNode (createFacetFromCost c) = some n →
      n ∈ s.nodes ∧
      isMakingObsolete s.p s.eps (createFacetFromCost c) (s.vmap n) false = true ∧
      (∃ l₁ l₂, s.nodes = l₁ ++ n :: l₂ ∧
        ∀ m ∈ l₁,
          isMakingObsolete s.p s.eps (createFacetFromCost c) (s.vmap m) false = false) ∧
      (s.isExtremalThorough c).1 = true ∧
      (s.isExtremalThorough c).2 =
        Skeleton.addFacet { s with lastReturned := some n } (createFacetFromCost c) n) ∧
    (s.findObsoleteNode (createFacetFromCost c) = none →
      (∀ m ∈ s.nodes,
        isMakingObsolete s.p s.eps (createFacetFromCost c) (s.vmap m) false = false) ∧
      (s.isExtremalThorough c).1 = false ∧
      ((s.isExtremalThorough c).2).facets = s.facets ∧
      ((s.isExtremalThorough c).2).nodes = s.nodes ∧
      ((s.isExtremalThorough c).2).edges = s.edges) := by
  constructor
  · intro n h
    have h0 : List.find?
        (fun m => isMakingObsolete s.p s.eps (createFacetFromCost c) (s.vmap m) false)
        s.nodes = some n := h
    have hmem : n ∈ s.nodes := List.mem_of_find?_eq_some h0
    have hobs : isMakingObsolete s.p s.eps (createFacetFromCost c) (s.vmap n) false = true := by
      simpa using List.find?_some h0
    have hfirst := find?_split _ s.nodes n h0
    refine ⟨hmem, hobs, hfirst, ?_, ?_⟩ <;>
      simp only [Skeleton.isExtremalThorough, h, hobs, if_true]
  · intro h
    have h0 : List.find?
        (fun m => isMakingObsolete s.p s.eps (createFacetFromCost c) (s.vmap m) false)
        s.nodes = none := h
    have hall : ∀ m ∈ s.nodes,
        isMakingObsolete s.p s.eps (createFacetFromCost c) (s.vmap m) false = false := by
      intro m hm
      have := List.find?_eq_none.mp h0 m hm
      simpa using this
    refine ⟨hall, ?_, ?_, ?_, ?_⟩ <;>
      simp only [Skeleton.isExtremalThorough, h]

unseal Rat.add Rat.mul Rat.sub Rat.inv in
/-- Witness for C5: on the demo skeleton, point `(1, 1)` finds obsolete
node `0` and point `(9, 9)` finds none. -/
theorem isExtremalThorough_spec_witness :
    (demoSkeleton.findObsoleteNode (createFacetFromCost [1, 1]) = some 0 ∧
      (demoSkeleton.isExtremalThorough [1, 1]).1 = true) ∧
    (demoSkeleton.findObsoleteNode (createFacetFromCost [9, 9]) = none ∧
      (demoSkeleton.isExtremalThorough [9, 9]).1 = false ∧
      ((demoSkeleton.isExtremalThorough [9, 9]).2).facets = demoSkeleton.facets) := by
  refine ⟨⟨by decide, ?_⟩, by decide, ?_, ?_⟩
  · exact ((isExtremalThorough_spec demoSkeleton [1, 1]).1 0 (by decide)).2.2.2.1
  · exact ((isExtremalThorough_spec demoSkeleton [9, 9]).2 (by decide)).2.1
  · exact ((isExtremalThorough_spec demoSkeleton [9, 9]).2 (by decide)).2.2.1

/-! ### Claim C6: addPrimalRay / addPrimalRayThorough -/

unseal Rat.add Rat.mul Rat.sub Rat.inv in
/-- Counterexample to C6: on the demo skeleton the ray `(1, 1)` makes no
vertex obsolete, so `addPrimalRayThorough` neither appends the ray facet
to the facet store nor runs the update algorithm — the skeleton's facet
store and graph are left unchanged, refuting "always mutates ... with no
is-it-obsolete decision gating the mutation". -/
theorem addPrimalRayThorough_not_always_mutating :
    (demoSkeleton.addPrimalRayThorough [1, 1]).facets = demoSkeleton.facets ∧
    (demoSkeleton.addPrimalRayThorough [1, 1]).nodes = demoSkeleton.nodes ∧
    (demoSkeleton.addPrimalRayThorough [1, 1]).edges = demoSkeleton.edges ∧
    demoSkeleton.findObsoleteNode (createFacetFromRay 2 [1, 1]) = none := by
  have h : demoSkeleton.findObsoleteNode (createFacetFromRay demoSkeleton.p [1, 1])
      = none := by decide
  refine ⟨?_, ?_, ?_, h⟩ <;>
    simp only [Skeleton.addPrimalRayThorough, h]

/-- C6 amended: `addPrimalRay` unconditionally appends the ray facet and
runs the update algorithm seeded at `last_returned_node_`; but
`addPrimalRayThorough` first scans the whole graph for a node the ray
facet makes obsolete, appends the facet and runs the update only when one
exists, and otherwise leaves the facet store and the graph unchanged. -/
theorem addPrimalRay_mutation_spec (s : Skeleton) (r : List ℚ) :
    (∀ n, s.lastReturned = some n →
      s.addPrimalRay r = some (s.addFacet (createFacetFromRay s.p r) n) ∧
      (s.addFacet (createFacetFromRay s.p r) n).facets
        = s.facets ++ [createFacetFromRay s.p r]) ∧
    (∀ n, s.findObsoleteNode (createFacetFromRay s.p r) = some n →
      s.addPrimalRayThorough r
        = Skeleton.addFacet { s with lastReturned := some n } (createFacetFromRay s.p r) n ∧
      (s.addPrimalRayThorough r).facets = s.facets ++ [createFacetFromRay s.p r]) ∧
    (s.findObsoleteNode (createFacetFromRay s.p r) = none →
      (s.addPrimalRayThorough r).facets = s.facets ∧
      (s.addPrimalRayThorough r).nodes = s.nodes ∧
      (s.addPrimalRayThorough r).edges = s.edges) := by
  refine ⟨?_, ?_, ?_⟩
  · intro n h
    refine ⟨?_, addFacet_facets s _ n⟩
    unfold Skeleton.addPrimalRay
    rw [h]
    rfl
  · intro n h
    have h1 : s.addPrimalRayThorough r
        = Skeleton.addFacet { s with lastReturned := some n } (createFacetFromRay s.p r) n := by
      simp only [Skeleton.addPrimalRayThorough, h]
    refine ⟨h1, ?_⟩
    rw [h1, addFacet_facets]
  · intro h
    simp only [Skeleton.addPrimalRayThorough, h]
    exact ⟨trivial, trivial, trivial⟩

unseal Rat.add Rat.mul Rat.sub Rat.inv in
/-- Witness for C6 (amended): on the demo skeleton, `addPrimalRay` with
ray `(1, 1)` appends the ray facet, and `addPrimalRayThorough` with the
cutting ray `(-3, 1)` finds obsolete node `0` and appends the ray facet. -/
theorem addPrimalRay_mutation_spec_witness :
    demoSkeleton.lastReturned = some 0 ∧
    demoSkeleton.findObsoleteNode (createFacetFromRay 2 [-3, 1]) = some 0 ∧
    (demoSkeleton.addPrimalRay [1, 1]
      = some (demoSkeleton.addFacet (createFacetFromRay 2 [1, 1]) 0)) ∧
    (demoSkeleton.addPrimalRayThorough [-3, 1]).facets
      = demoSkeleton.facets ++ [createFacetFromRay 2 [-3, 1]] := by
  refine ⟨rfl, by decide, ?_, ?_⟩
  · exact ((addPrimalRay_mutation_spec demoSkeleton [1, 1]).1 0 rfl).1
  · exact ((addPrimalRay_mutation_spec demoSkeleton [-3, 1]).2.1 0 (by decide)).2

/-! ### Claim C2: one step of the flood fill -/

/-- The incident neighbours of `n` that a scan starting from obsolete set
`O` newly marks obsolete: not already marked, and strictly obsolete. -/
def newlyObsolete (p : ℕ) (eps : ℚ) (f : List ℚ) (vm : ℕ → WeightSpaceVertex)
    (edges : List (ℕ × ℕ)) (n : ℕ) (O : Finset ℕ) : List ℕ :=
  ((incidentEdges edges n).map (oppositeNode n)).filter
    (fun nb => decide (nb ∉ O) && isMakingObsolete p eps f (vm nb) true)

/-- The incident edges of `n` that a scan starting from obsolete set `O`
records as cut edges: the neighbour is not marked obsolete and fails the
strict test. -/
def newCutEdges (p : ℕ) (eps : ℚ) (f : List ℚ) (vm : ℕ → WeightSpaceVertex)
    (edges : List (ℕ × ℕ)) (n : ℕ) (O : Finset ℕ) : List (ℕ × ℕ) :=
  (incidentEdges edges n).filter
    (fun e => decide (oppositeNode n e ∉ O)
      && !isMakingObsolete p eps f (vm (oppositeNode n e)) true)

lemma scanFold_spec (p : ℕ) (eps : ℚ) (f : List ℚ) (vm : ℕ → WeightSpaceVertex)
    (n : ℕ) :
    ∀ (es : List (ℕ × ℕ)) (st : ScanState),
      (es.map (oppositeNode n)).Nodup →
      es.foldl (scanStep p eps f vm n) st =
        { obs := st.obs ∪ ((es.map (oppositeNode n)).filter
            (fun nb => decide (nb ∉ st.obs) && isMakingObsolete p eps f (vm nb) true)).toFinset,
          queue := st.queue ++ (es.map (oppositeNode n)).filter
            (fun nb => decide (nb ∉ st.obs) && isMakingObsolete p eps f (vm nb) true),
          cuts := st.cuts ++ es.filter
            (fun e => decide (oppositeNode n e ∉ st.obs)
              && !isMakingObsolete p eps f (vm (oppositeNode n e)) true),
          unt := st.unt \ ((es.map (oppositeNode n)).filter
            (fun nb => decide (nb ∉ st.obs) && isMakingObsolete p eps f (vm nb) true)).toFinset,
          nproc := st.nproc } := by
  intro es
  induction es with
  | nil =>
    intro st _
    simp
  | cons e rest ih =>
    intro st hnd
    rw [List.map_cons, List.nodup_cons] at hnd
    obtain ⟨hnb, hndr⟩ := hnd
    obtain ⟨O, Q, C, U, np⟩ := st
    rw [List.foldl_cons]
    by_cases hO : oppositeNode n e ∈ O
    · have hstep : scanStep p eps f vm n ⟨O, Q, C, U, np⟩ e = ⟨O, Q, C, U, np⟩ := by
        unfold scanStep
        simp [hO]
      have hpred : (decide (oppositeNode n e ∉ O)
          && isMakingObsolete p eps f (vm (oppositeNode n e)) true) = false := by
        simp [hO]
      have hpred2 : (decide (oppositeNode n e ∉ O)
          && !isMakingObsolete p eps f (vm (oppositeNode n e)) true) = false := by
        simp [hO]
      rw [hstep, ih _ hndr, List.map_cons, List.filter_cons, List.filter_cons, hpred, hpred2]
      simp
    · by_cases hB : isMakingObsolete p eps f (vm (oppositeNode n e)) true = true
      · have hstep : scanStep p eps f vm n ⟨O, Q, C, U, np⟩ e =
            ⟨insert (oppositeNode n e) O, Q ++ [oppositeNode n e], C,
              U.erase (oppositeNode n e), np⟩ := by
          unfold scanStep
          simp [hO, hB]
        rw [hstep, ih _ hndr]
        have hcongr : ∀ nb ∈ rest.map (oppositeNode n),
            (decide (nb ∉ insert (oppositeNode n e) O)
              && isMakingObsolete p eps f (vm nb) true)
            = (decide (nb ∉ O) && isMakingObsolete p eps f (vm nb) true) := by
          intro nb hmem
          have hne : nb ≠ oppositeNode n e := fun hcon => hnb (hcon ▸ hmem)
          simp [Finset.mem_insert, hne]
        have hcongr2 : ∀ e2 ∈ rest,
            (decide (oppositeNode n e2 ∉ insert (oppositeNode n e) O)
              && !isMakingObsolete p eps f (vm (oppositeNode n e2)) true)
            = (decide (oppositeNode n e2 ∉ O)
              && !isMakingObsolete p eps f (vm (oppositeNode n e2)) true) := by
          intro e2 hmem
          have hne : oppositeNode n e2 ≠ oppositeNode n e :=
            fun hcon => hnb (hcon ▸ List.mem_map_of_mem (oppositeNode n) hmem)
          simp [Finset.mem_insert, hne]
        have hpred : (decide (oppositeNode n e ∉ O)
            && isMakingObsolete p eps f (vm (oppositeNode n e)) true) = true := by
          simp [hO, hB]
        have hpred2 : (decide (oppositeNode n e ∉ O)
            && !isMakingObsolete p eps f (vm (oppositeNode n e)) true) = false := by
          simp [hB]
        rw [List.filter_congr hcongr, List.filter_congr hcongr2, List.map_cons,
          List.filter_cons, List.filter_cons, hpred, hpred2]
        simp only [if_true, if_false, cond_true, cond_false, Bool.false_eq_true,
          List.toFinset_cons]
        congr 1
        · ext x
          simp only [Finset.mem_union, Finset.mem_insert, List.mem_toFinset]
          tauto
        · simp
        · ext x
          simp only [Finset.mem_sdiff, Finset.mem_erase, Finset.mem_insert,
            List.mem_toFinset]
          tauto
      · have hstep : scanStep p eps f vm n ⟨O, Q, C, U, np⟩ e =
            ⟨O, Q, C ++ [e], U, np⟩ := by
          unfold scanStep
          simp [hO, hB]
        have hpred : (decide (oppositeNode n e ∉ O)
            && isMakingObsolete p eps f (vm (oppositeNode n e)) true) = false := by
          simp [hB]
        have hpred2 : (decide (oppositeNode n e ∉ O)
            && !isMakingObsolete p eps f (vm (oppositeNode n e)) true) = true := by
          simp [hO, hB]
        rw [hstep, ih _ hndr, List.map_cons, List.filter_cons, List.filter_cons, hpred, hpred2]
        simp

/-- C2: one iteration of the flood-fill loop.  Whenever the work queue is
non-empty, the loop pops its front node `n` and scans it: every incident
neighbour not already marked obsolete is tested with the strict
(zero-tolerance) obsolescence test; the ones found obsolete are marked,
appended to the queue and removed from the untested set, and the edges to
the others are appended to the cut edge list; the processed-node counter
grows by one.  (The incident neighbours of the popped node are assumed
pairwise distinct, i.e. no parallel edges at that node, which holds in
every reachable graph.) -/
theorem floodfill_step_spec (p : ℕ) (eps : ℚ) (f : List ℚ)
    (vm : ℕ → WeightSpaceVertex) (edges : List (ℕ × ℕ)) (fuel : ℕ)
    (st : ScanState) (n : ℕ) (q : List ℕ)
    (hq : st.queue = n :: q)
    (hnd : ((incidentEdges edges n).map (oppositeNode n)).Nodup) :
    bfsLoop p eps f vm edges (fuel + 1) st =
      bfsLoop p eps f vm edges fuel
        { obs := st.obs ∪ (newlyObsolete p eps f vm edges n st.obs).toFinset,
          queue := q ++ newlyObsolete p eps f vm edges n st.obs,
          cuts := st.cuts ++ newCutEdges p eps f vm edges n st.obs,
          unt := st.unt \ (newlyObsolete p eps f vm edges n st.obs).toFinset,
          nproc := st.nproc + 1 } := by
  obtain ⟨O, Q, C, U, np⟩ := st
  simp only at hq
  subst hq
  show bfsLoop p eps f vm edges (fuel + 1) ⟨O, n :: q, C, U, np⟩ = _
  rw [show bfsLoop p eps f vm edges (fuel + 1) ⟨O, n :: q, C, U, np⟩
      = bfsLoop p eps f vm edges fuel
          (scanNode p eps f vm edges n ⟨O, q, C, U, np + 1⟩) from rfl]
  unfold scanNode
  rw [scanFold_spec p eps f vm n _ _ hnd]
  rfl

unseal Rat.add Rat.mul Rat.sub Rat.inv in
/-- Witness for C2 on the demo skeleton's graph: popping the seed node `0`
with facet `(1, 1, −1)` marks neighbour `1` obsolete, enqueues it, removes
it from the untested set and records no cut edge. -/
theorem floodfill_step_spec_witness :
    (⟨{0}, [0], [], {1}, 0⟩ : ScanState).queue = 0 :: [] ∧
    ((incidentEdges demoSkeleton.edges 0).map (oppositeNode 0)).Nodup ∧
    bfsLoop 2 1 [1, 1, -1] demoSkeleton.vmap demoSkeleton.edges 3
        ⟨{0}, [0], [], {1}, 0⟩ =
      bfsLoop 2 1 [1, 1, -1] demoSkeleton.vmap demoSkeleton.edges 2
        { obs := {0} ∪ (newlyObsolete 2 1 [1, 1, -1] demoSkeleton.vmap
            demoSkeleton.edges 0 {0}).toFinset,
          queue := [] ++ newlyObsolete 2 1 [1, 1, -1] demoSkeleton.vmap
            demoSkeleton.edges 0 {0},
          cuts := [] ++ newCutEdges 2 1 [1, 1, -1] demoSkeleton.vmap
            demoSkeleton.edges 0 {0},
          unt := {1} \ (newlyObsolete 2 1 [1, 1, -1] demoSkeleton.vmap
            demoSkeleton.edges 0 {0}).toFinset,
          nproc := 0 + 1 } :=
  ⟨rfl, by decide,
   floodfill_step_spec 2 1 [1, 1, -1] demoSkeleton.vmap demoSkeleton.edges 2
     ⟨{0}, [0], [], {1}, 0⟩ 0 [] rfl (by decide)⟩

/-! ### Flood fill invariants -/

/-- Invariant of the flood fill state relative to the graph, the seed node
and the initial untested set: the seed is marked obsolete, marked nodes
are graph nodes, queued nodes are marked, every marked node other than the
seed is strictly obsolete, untested nodes are unmarked members of the
initial untested set, and every recorded cut edge is a graph edge with one
endpoint marked and the other strictly surviving and distinct from the
seed. -/
def ScanInv (p : ℕ) (eps : ℚ) (f : List ℚ) (vm : ℕ → WeightSpaceVertex)
    (edges : List (ℕ × ℕ)) (nodes : List ℕ) (seed : ℕ) (unt0 : Finset ℕ)
    (st : ScanState) : Prop :=
  seed ∈ st.obs ∧
  (∀ m ∈ st.obs, m ∈ nodes) ∧
  (∀ m ∈ st.queue, m ∈ st.obs) ∧
  (∀ m ∈ st.obs, m = seed ∨ isMakingObsolete p eps f (vm m) true = true) ∧
  (∀ u ∈ st.unt, u ∉ st.obs ∧ u ∈ unt0) ∧
  (∀ e ∈ st.cuts, e ∈ edges ∧
    ((e.1 ∈ st.obs ∧ isMakingObsolete p eps f (vm e.2) true = false ∧ e.2 ≠ seed) ∨
     (e.2 ∈ st.obs ∧ isMakingObsolete p eps f (vm e.1) true = false ∧ e.1 ≠ seed)))

lemma scanStep_inv {p : ℕ} {eps : ℚ} {f : List ℚ} {vm : ℕ → WeightSpaceVertex}
    {edges : List (ℕ × ℕ)} {nodes : List ℕ} {seed : ℕ} {unt0 : Finset ℕ}
    {st : ScanState} {n : ℕ} {e : ℕ × ℕ}
    (hedges : ∀ e2 ∈ edges, e2.1 ∈ nodes ∧ e2.2 ∈ nodes)
    (he : e ∈ edges) (hinc : e.1 = n ∨ e.2 = n) (hn : n ∈ st.obs)
    (h : ScanInv p eps f vm edges nodes seed unt0 st) :
    ScanInv p eps f vm edges nodes seed unt0 (scanStep p eps f vm n st e) := by
  obtain ⟨hseed, hnodes, hqueue, hstrict, hunt, hcuts⟩ := h
  unfold scanStep
  by_cases hO : oppositeNode n e ∈ st.obs
  · rw [if_pos hO]
    exact ⟨hseed, hnodes, hqueue, hstrict, hunt, hcuts⟩
  · rw [if_neg hO]
    by_cases hB : isMakingObsolete p eps f (vm (oppositeNode n e)) true = true
    · rw [if_pos hB]
      have hnbnode : oppositeNode n e ∈ nodes := by
        unfold oppositeNode
        rcases hedges e he with ⟨h1, h2⟩
        split <;> assumption
      refine ⟨Finset.mem_insert_of_mem hseed, ?_, ?_, ?_, ?_, ?_⟩
      · intro m hm
        rcases Finset.mem_insert.mp hm with hm | hm
        · exact hm ▸ hnbnode
        · exact hnodes m hm
      · intro m hm
        rcases List.mem_append.mp hm with hm | hm
        · exact Finset.mem_insert_of_mem (hqueue m hm)
        · rw [List.mem_singleton.mp hm]
          exact Finset.mem_insert_self _ _
      · intro m hm
        rcases Finset.mem_insert.mp hm with hm | hm
        · exact Or.inr (hm ▸ hB)
        · exact hstrict m hm
      · intro u hu
        have hu1 := Finset.mem_of_mem_erase hu
        have hune := Finset.ne_of_mem_erase hu
        rcases hunt u hu1 with ⟨h1, h2⟩
        exact ⟨fun hcon => (Finset.mem_insert.mp hcon).elim hune h1, h2⟩
      · intro e2 he2
        rcases hcuts e2 he2 with ⟨hmem, hL | hR⟩
        · exact ⟨hmem, Or.inl ⟨Finset.mem_insert_of_mem hL.1, hL.2⟩⟩
        · exact ⟨hmem, Or.inr ⟨Finset.mem_insert_of_mem hR.1, hR.2⟩⟩
    · rw [if_neg hB]
      refine ⟨hseed, hnodes, hqueue, hstrict, hunt, ?_⟩
      intro e2 he2
      rcases List.mem_append.mp he2 with he2 | he2
      · exact hcuts e2 he2
      · rw [List.mem_singleton.mp he2]
        have hBf : isMakingObsolete p eps f (vm (oppositeNode n e)) true = false :=
          Bool.not_eq_true _ ▸ (Bool.eq_false_iff.mpr hB)
        have hnbseed : oppositeNode n e ≠ seed := by
          intro hcon
          exact hO (hcon ▸ hseed)
        rcases hinc with h1 | h2
        · refine ⟨he, Or.inl ⟨h1 ▸ hn, ?_, ?_⟩⟩
          · have : oppositeNode n e = e.2 := by
              unfold oppositeNode
              rw [if_pos h1]
            exact this ▸ hBf
          · have : oppositeNode n e = e.2 := by
              unfold oppositeNode
              rw [if_pos h1]
            exact this ▸ hnbseed
        · by_cases h1 : e.1 = n
          · refine ⟨he, Or.inl ⟨h1 ▸ hn, ?_, ?_⟩⟩
            · have : oppositeNode n e = e.2 := by
                unfold oppositeNode
                rw [if_pos h1]
              exact this ▸ hBf
            · have : oppositeNode n e = e.2 := by
                unfold oppositeNode
                rw [if_pos h1]
              exact this ▸ hnbseed
          · have hopp : oppositeNode n e = e.1 := by
              unfold oppositeNode
              rw [if_neg h1]
            refine ⟨he, Or.inr ⟨h2 ▸ hn, hopp ▸ hBf, hopp ▸ hnbseed⟩⟩

lemma scanStep_obs_mono (p : ℕ) (eps : ℚ) (f : List ℚ)
    (vm : ℕ → WeightSpaceVertex) (n : ℕ) (st : ScanState) (e : ℕ × ℕ) :
    st.obs ⊆ (scanStep p eps f vm n st e).obs := by
  unfold scanStep
  by_cases hO : oppositeNode n e ∈ st.obs
  · rw [if_pos hO]
  · rw [if_neg hO]
    by_cases hB : isMakingObsolete p eps f (vm (oppositeNode n e)) true = true
    · rw [if_pos hB]
      exact Finset.subset_insert _ _
    · rw [if_neg hB]

lemma scanFold_inv {p : ℕ} {eps : ℚ} {f : List ℚ} {vm : ℕ → WeightSpaceVertex}
    {edges : List (ℕ × ℕ)} {nodes : List ℕ} {seed : ℕ} {unt0 : Finset ℕ}
    (hedges : ∀ e2 ∈ edges, e2.1 ∈ nodes ∧ e2.2 ∈ nodes) (n : ℕ) :
    ∀ (l : List (ℕ × ℕ)) (st : ScanState),
      (∀ e ∈ l, e ∈ edges ∧ (e.1 = n ∨ e.2 = n)) → n ∈ st.obs →
      ScanInv p eps f vm edges nodes seed unt0 st →
      ScanInv p eps f vm edges nodes seed unt0 (l.foldl (scanStep p eps f vm n) st) ∧
      st.obs ⊆ (l.foldl (scanStep p eps f vm n) st).obs := by
  intro l
  induction l with
  | nil => exact fun st _ _ h => ⟨h, fun x hx => hx⟩
  | cons e rest ih =>
    intro st hl hn h
    rw [List.foldl_cons]
    rcases hl e (List.mem_cons_self e rest) with ⟨he, hinc⟩
    have h1 := scanStep_inv hedges he hinc hn h
    have hmono := scanStep_obs_mono p eps f vm n st e
    rcases ih (scanStep p eps f vm n st e)
        (fun e2 he2 => hl e2 (List.mem_cons_of_mem e he2)) (hmono hn) h1 with ⟨h2, h3⟩
    exact ⟨h2, le_trans hmono h3⟩

lemma scanNode_inv {p : ℕ} {eps : ℚ} {f : List ℚ} {vm : ℕ → WeightSpaceVertex}
    {edges : List (ℕ × ℕ)} {nodes : List ℕ} {seed : ℕ} {unt0 : Finset ℕ}
    (hedges : ∀ e2 ∈ edges, e2.1 ∈ nodes ∧ e2.2 ∈ nodes)
    (n : ℕ) (st : ScanState) (hn : n ∈ st.obs)
    (h : ScanInv p eps f vm edges nodes seed unt0 st) :
    ScanInv p eps f vm edges nodes seed unt0 (scanNode p eps f vm edges n st) ∧
    st.obs ⊆ (scanNode p eps f vm edges n st).obs := by
  unfold scanNode
  refine scanFold_inv hedges n _ st ?_ hn h
  intro e he
  rw [incidentEdges, List.mem_filter] at he
  refine ⟨he.1, ?_⟩
  have := he.2
  simpa using this

lemma bfsLoop_succ_nil (p : ℕ) (eps : ℚ) (f : List ℚ) (vm : ℕ → WeightSpaceVertex)
    (edges : List (ℕ × ℕ)) (fuel : ℕ) (st : ScanState) (h : st.queue = []) :
    bfsLoop p eps f vm edges (fuel + 1) st = st := by
  obtain ⟨O, Q, C, U, np⟩ := st
  simp only at h
  subst h
  rfl

lemma bfsLoop_succ_cons (p : ℕ) (eps : ℚ) (f : List ℚ) (vm : ℕ → WeightSpaceVertex)
    (edges : List (ℕ × ℕ)) (fuel : ℕ) (st : ScanState) (n : ℕ) (q : List ℕ)
    (h : st.queue = n :: q) :
    bfsLoop p eps f vm edges (fuel + 1) st =
      bfsLoop p eps f vm edges fuel
        (scanNode p eps f vm edges n { st with queue := q, nproc := st.nproc + 1 }) := by
  obtain ⟨O, Q, C, U, np⟩ := st
  simp only at h
  subst h
  rfl

lemma bfsLoop_inv {p : ℕ} {eps : ℚ} {f : List ℚ} {vm : ℕ → WeightSpaceVertex}
    {edges : List (ℕ × ℕ)} {nodes : List ℕ} {seed : ℕ} {unt0 : Finset ℕ}
    (hedges : ∀ e2 ∈ edges, e2.1 ∈ nodes ∧ e2.2 ∈ nodes) :
    ∀ (fuel : ℕ) (st : ScanState),
      ScanInv p eps f vm edges nodes seed unt0 st →
      ScanInv p eps f vm edges nodes seed unt0 (bfsLoop p eps f vm edges fuel st) ∧
      st.obs ⊆ (bfsLoop p eps f vm edges fuel st).obs := by
  intro fuel
  induction fuel with
  | zero => exact fun st h => ⟨h, fun x hx => hx⟩
  | succ fuel ih =>
    intro st h
    rcases hq : st.queue with _ | ⟨n, q⟩
    · rw [bfsLoop_succ_nil p eps f vm edges fuel st hq]
      exact ⟨h, fun x hx => hx⟩
    · rw [bfsLoop_succ_cons p eps f vm edges fuel st n q hq]
      obtain ⟨hseed, hnodes, hqueue, hstrict, hunt, hcuts⟩ := h
      have hn : n ∈ st.obs := hqueue n (by rw [hq]; exact List.mem_cons_self _ _)
      have h1 : ScanInv p eps f vm edges nodes seed unt0
          { st with queue := q, nproc := st.nproc + 1 } := by
        refine ⟨hseed, hnodes, ?_, hstrict, hunt, hcuts⟩
        intro m hm
        exact hqueue m (by rw [hq]; exact List.mem_cons_of_mem _ hm)
      rcases scanNode_inv hedges n { st with queue := q, nproc := st.nproc + 1 } hn h1
        with ⟨h2, h3⟩
      rcases ih _ h2 with ⟨h4, h5⟩
      exact ⟨h4, fun x hx => h5 (h3 hx)⟩

/-- The flood fill run by `addFacet` satisfies the scan invariant. -/
lemma runScan_inv (s : Skeleton) (f : List ℚ) (seed : ℕ)
    (hseed : seed ∈ s.nodes)
    (hedges : ∀ e2 ∈ s.edges, e2.1 ∈ s.nodes ∧ e2.2 ∈ s.nodes) :
    ScanInv s.p s.eps f s.vmap s.edges s.nodes seed s.untested (s.runScan f seed) := by
  unfold Skeleton.runScan
  refine (bfsLoop_inv hedges _ _ ?_).1
  refine ⟨Finset.mem_singleton_self _, ?_, ?_, ?_, ?_, ?_⟩
  · intro m hm
    rw [Finset.mem_singleton.mp hm]
    exact hseed
  · intro m hm
    rw [List.mem_singleton.mp hm]
    exact Finset.mem_singleton_self _
  · intro m hm
    exact Or.inl (Finset.mem_singleton.mp hm)
  · intro u hu
    refine ⟨?_, Finset.mem_of_mem_erase hu⟩
    rw [Finset.mem_singleton]
    exact Finset.ne_of_mem_erase hu
  · intro e he
    simp at he

/-! ### Graph surgery: fold characterizations -/

/-- Identifier sanity of the working state: node identifiers and untested
identifiers are below the fresh-identifier counter. -/
def GoodIds (g : UpdState) : Prop :=
  (∀ n ∈ g.sk.nodes, n < g.sk.nextId) ∧ (∀ u ∈ g.sk.untested, u < g.sk.nextId)

/-- Sanity of the `new_vertices_` record: each recorded pair is a live
graph node mapped to the recorded vertex. -/
def NewVertsOK (g : UpdState) : Prop :=
  ∀ pr ∈ g.newVerts, pr.1 ∈ g.sk.nodes ∧ pr.1 < g.sk.nextId ∧ g.sk.vmap pr.1 = pr.2

lemma makeIntermediateVertex_basic (p : ℕ) (f : List ℚ) (idx : ℕ) (O : Finset ℕ)
    (g : UpdState) (e : ℕ × ℕ) :
    (makeIntermediateVertex p f idx O g e).sk.nextId = g.sk.nextId + 1 ∧
    (makeIntermediateVertex p f idx O g e).sk.nodes = g.sk.nodes ++ [g.sk.nextId] ∧
    (makeIntermediateVertex p f idx O g e).sk.edges
      = g.sk.edges ++ [(g.sk.nextId, (cutSplit O e).1)] ∧
    (makeIntermediateVertex p f idx O g e).sk.untested
      = insert g.sk.nextId g.sk.untested ∧
    (makeIntermediateVertex p f idx O g e).newVerts
      = g.newVerts ++ [(g.sk.nextId,
          combineVertices p f idx (g.sk.vmap (cutSplit O e).2)
            (g.sk.vmap (cutSplit O e).1))] ∧
    (makeIntermediateVertex p f idx O g e).sk.vmap g.sk.nextId
      = combineVertices p f idx (g.sk.vmap (cutSplit O e).2)
          (g.sk.vmap (cutSplit O e).1) ∧
    (∀ m, m ≠ g.sk.nextId →
      (makeIntermediateVertex p f idx O g e).sk.vmap m = g.sk.vmap m) ∧
    (makeIntermediateVertex p f idx O g e).sk.p = g.sk.p ∧
    (makeIntermediateVertex p f idx O g e).sk.eps = g.sk.eps ∧
    (makeIntermediateVertex p f idx O g e).sk.facets = g.sk.facets ∧
    (makeIntermediateVertex p f idx O g e).sk.lastReturned = g.sk.lastReturned := by
  unfold makeIntermediateVertex Skeleton.addNode
  refine ⟨rfl, rfl, rfl, by simp, rfl, ?_, ?_, rfl, rfl, rfl, rfl⟩
  · simp [Function.update]
  · intro m hm
    simp [Function.update, hm]

lemma updateCornerStep_basic (p : ℕ) (f : List ℚ) (idx seed : ℕ)
    (g : UpdState) (o : ℕ) :
    (isCorner p (g.sk.vmap o) = false → updateCornerStep p f idx seed g o = g) ∧
    (isCorner p (g.sk.vmap o) = true →
      (updateCornerStep p f idx seed g o).sk.nextId = g.sk.nextId + 1 ∧
      (updateCornerStep p f idx seed g o).sk.nodes = g.sk.nodes ++ [g.sk.nextId] ∧
      (updateCornerStep p f idx seed g o).sk.edges = g.sk.edges ∧
      (updateCornerStep p f idx seed g o).sk.untested
        = (if o ≠ seed then insert g.sk.nextId g.sk.untested else g.sk.untested) ∧
      (updateCornerStep p f idx seed g o).newVerts
        = g.newVerts ++ [(g.sk.nextId, updateFacet p idx f (g.sk.vmap o))] ∧
      (updateCornerStep p f idx seed g o).sk.vmap g.sk.nextId
        = updateFacet p idx f (g.sk.vmap o) ∧
      (∀ m, m ≠ g.sk.nextId →
        (updateCornerStep p f idx seed g o).sk.vmap m = g.sk.vmap m) ∧
      (updateCornerStep p f idx seed g o).sk.p = g.sk.p ∧
      (updateCornerStep p f idx seed g o).sk.eps = g.sk.eps ∧
      (updateCornerStep p f idx seed g o).sk.facets = g.sk.facets ∧
      (updateCornerStep p f idx seed g o).sk.lastReturned = g.sk.lastReturned) := by
  constructor
  · intro hc
    unfold updateCornerStep
    rw [hc]
    simp
  · intro hc
    unfold updateCornerStep
    rw [hc]
    simp only [if_true]
    refine ⟨rfl, rfl, rfl, ?_, rfl, ?_, ?_, rfl, rfl, rfl, rfl⟩
    · by_cases hos : o = seed
      · simp [Skeleton.addNode, hos]
      · simp [Skeleton.addNode, hos]
    · simp [Skeleton.addNode, Function.update]
    · intro m hm
      simp [Skeleton.addNode, Function.update, hm]

lemma interFold_spec (p : ℕ) (f : List ℚ) (idx : ℕ) (O : Finset ℕ) :
    ∀ (cs : List (ℕ × ℕ)) (g : UpdState),
      (∀ e ∈ cs, (cutSplit O e).1 < g.sk.nextId ∧ (cutSplit O e).2 < g.sk.nextId) →
      (cs.foldl (makeIntermediateVertex p f idx O) g).sk.p = g.sk.p ∧
      (cs.foldl (makeIntermediateVertex p f idx O) g).sk.eps = g.sk.eps ∧
      (cs.foldl (makeIntermediateVertex p f idx O) g).sk.facets = g.sk.facets ∧
      (cs.foldl (makeIntermediateVertex p f idx O) g).sk.lastReturned = g.sk.lastReturned ∧
      g.sk.nextId ≤ (cs.foldl (makeIntermediateVertex p f idx O) g).sk.nextId ∧
      (∀ m, m < g.sk.nextId →
        (cs.foldl (makeIntermediateVertex p f idx O) g).sk.vmap m = g.sk.vmap m) ∧
      (∃ L, (cs.foldl (makeIntermediateVertex p f idx O) g).sk.nodes = g.sk.nodes ++ L ∧
        ∀ x ∈ L, g.sk.nextId ≤ x ∧
          x < (cs.foldl (makeIntermediateVertex p f idx O) g).sk.nextId ∧
          ∃ e ∈ cs, (cs.foldl (makeIntermediateVertex p f idx O) g).sk.vmap x
            = combineVertices p f idx (g.sk.vmap (cutSplit O e).2)
                (g.sk.vmap (cutSplit O e).1)) ∧
      (∃ E, (cs.foldl (makeIntermediateVertex p f idx O) g).sk.edges = g.sk.edges ++ E ∧
        ∀ ed ∈ E, ∃ e ∈ cs, ed.2 = (cutSplit O e).1 ∧
          g.sk.nextId ≤ ed.1 ∧
          ed.1 < (cs.foldl (makeIntermediateVertex p f idx O) g).sk.nextId ∧
          ed.1 ∈ (cs.foldl (makeIntermediateVertex p f idx O) g).sk.nodes ∧
          (cs.foldl (makeIntermediateVertex p f idx O) g).sk.vmap ed.1
            = combineVertices p f idx (g.sk.vmap (cutSplit O e).2)
                (g.sk.vmap (cutSplit O e).1)) ∧
      (∃ V, (cs.foldl (makeIntermediateVertex p f idx O) g).newVerts = g.newVerts ++ V ∧
        ∀ pr ∈ V, ∃ e ∈ cs,
          pr.2 = combineVertices p f idx (g.sk.vmap (cutSplit O e).2)
              (g.sk.vmap (cutSplit O e).1) ∧
          g.sk.nextId ≤ pr.1 ∧
          pr.1 < (cs.foldl (makeIntermediateVertex p f idx O) g).sk.nextId) ∧
      (∃ M : Finset ℕ,
        (cs.foldl (makeIntermediateVertex p f idx O) g).sk.untested = g.sk.untested ∪ M ∧
        ∀ x ∈ M, g.sk.nextId ≤ x ∧
          x ∈ (cs.foldl (makeIntermediateVertex p f idx O) g).sk.nodes) ∧
      (GoodIds g → GoodIds (cs.foldl (makeIntermediateVertex p f idx O) g)) ∧
      (NewVertsOK g → NewVertsOK (cs.foldl (makeIntermediateVertex p f idx O) g)) := by
  intro cs
  induction cs with
  | nil =>
    intro g _
    refine ⟨rfl, rfl, rfl, rfl, le_refl _, fun m _ => rfl, ⟨[], by simp, by simp⟩,
      ⟨[], by simp, by simp⟩, ⟨[], by simp, by simp⟩, ⟨∅, by simp, by simp⟩,
      fun h => h, fun h => h⟩
  | cons e rest ih =>
    intro g hcs
    rw [List.foldl_cons]
    obtain ⟨hB1, hB2, hB3, hB4, hB5, hB6, hB7, hB8, hB9, hB10, hB11⟩ :=
      makeIntermediateVertex_basic p f idx O g e
    set g1 := makeIntermediateVertex p f idx O g e with hg1
    have hcs1 : ∀ e2 ∈ rest, (cutSplit O e2).1 < g1.sk.nextId ∧
        (cutSplit O e2).2 < g1.sk.nextId := by
      intro e2 he2
      rcases hcs e2 (List.mem_cons_of_mem e he2) with ⟨h1, h2⟩
      rw [hB1]
      exact ⟨Nat.lt_succ_of_lt h1, Nat.lt_succ_of_lt h2⟩
    obtain ⟨ih1, ih2, ih3, ih4, ih5, ih6, ⟨L, ihL, ihLb⟩, ⟨E, ihE, ihEd⟩,
      ⟨V, ihV, ihVd⟩, ⟨M, ihM, ihMb⟩, ihG, ihN⟩ := ih g1 hcs1
    have hstab1 : ∀ m, m < g.sk.nextId → g1.sk.vmap m = g.sk.vmap m := by
      intro m hm
      exact hB7 m (Nat.ne_of_lt hm)
    have hstab : ∀ m, m < g.sk.nextId →
        (rest.foldl (makeIntermediateVertex p f idx O) g1).sk.vmap m = g.sk.vmap m := by
      intro m hm
      rw [ih6 m (by rw [hB1]; exact Nat.lt_succ_of_lt hm), hstab1 m hm]
    have hstep_le : g.sk.nextId ≤ g1.sk.nextId := by
      rw [hB1]
      exact Nat.le_succ _
    have hnext : g.sk.nextId ≤ (rest.foldl (makeIntermediateVertex p f idx O) g1).sk.nextId :=
      le_trans hstep_le ih5
    refine ⟨by rw [ih1, hB8], by rw [ih2, hB9], by rw [ih3, hB10], by rw [ih4, hB11],
      hnext, hstab, ?_, ?_, ?_, ?_, ?_, ?_⟩
    · refine ⟨g.sk.nextId :: L, ?_, ?_⟩
      · rw [ihL, hB2]
        simp
      · intro x hx
        rcases List.mem_cons.mp hx with hx | hx
        · subst hx
          refine ⟨le_refl _, lt_of_lt_of_le (by rw [hB1]; exact Nat.lt_succ_self _) ih5,
            e, List.mem_cons_self _ _, ?_⟩
          rw [ih6 g.sk.nextId (by rw [hB1]; exact Nat.lt_succ_self _), hB6]
        · rcases ihLb x hx with ⟨h1, h2, e2, he2, h3⟩
          refine ⟨le_trans (by rw [hB1]; exact Nat.le_succ _) h1, h2,
            e2, List.mem_cons_of_mem e he2, ?_⟩
          rw [h3]
          rcases hcs e2 (List.mem_cons_of_mem e he2) with ⟨hp1, hp2⟩
          rw [hstab1 _ hp1, hstab1 _ hp2]
    · refine ⟨(g.sk.nextId, (cutSplit O e).1) :: E, ?_, ?_⟩
      · rw [ihE, hB3]
        simp
      · intro ed hed
        rcases List.mem_cons.mp hed with hed | hed
        · subst hed
          refine ⟨e, List.mem_cons_self _ _, rfl, le_refl _, ?_, ?_, ?_⟩
          · exact lt_of_lt_of_le (by rw [hB1]; exact Nat.lt_succ_self _) ih5
          · rw [ihL, hB2]
            simp
          · rw [ih6 g.sk.nextId (by rw [hB1]; exact Nat.lt_succ_self _), hB6]
        · rcases ihEd ed hed with ⟨e2, he2, hd1, hd2, hd3, hd4, hd5⟩
          refine ⟨e2, List.mem_cons_of_mem e he2, hd1,
            le_trans (by rw [hB1]; exact Nat.le_succ _) hd2, hd3, hd4, ?_⟩
          rw [hd5]
          rcases hcs e2 (List.mem_cons_of_mem e he2) with ⟨hp1, hp2⟩
          rw [hstab1 _ hp1, hstab1 _ hp2]
    · refine ⟨(g.sk.nextId,
          combineVertices p f idx (g.sk.vmap (cutSplit O e).2)
            (g.sk.vmap (cutSplit O e).1)) :: V, ?_, ?_⟩
      · rw [ihV, hB5]
        simp
      · intro pr hpr
        rcases List.mem_cons.mp hpr with hpr | hpr
        · subst hpr
          exact ⟨e, List.mem_cons_self _ _, rfl, le_refl _,
            lt_of_lt_of_le (by rw [hB1]; exact Nat.lt_succ_self _) ih5⟩
        · rcases ihVd pr hpr with ⟨e2, he2, hd1, hd2, hd3⟩
          refine ⟨e2, List.mem_cons_of_mem e he2, ?_,
            le_trans (by rw [hB1]; exact Nat.le_succ _) hd2, hd3⟩
          rw [hd1]
          rcases hcs e2 (List.mem_cons_of_mem e he2) with ⟨hp1, hp2⟩
          rw [hstab1 _ hp1, hstab1 _ hp2]
    · refine ⟨insert g.sk.nextId M, ?_, ?_⟩
      · rw [ihM, hB4]
        ext x
        simp only [Finset.mem_union, Finset.mem_insert]
        tauto
      · intro x hx
        rcases Finset.mem_insert.mp hx with hx | hx
        · subst hx
          refine ⟨le_refl _, ?_⟩
          rw [ihL, hB2]
          simp
        · rcases ihMb x hx with ⟨h1, h2⟩
          exact ⟨le_trans (by rw [hB1]; exact Nat.le_succ _) h1, h2⟩
    · intro hG
      refine ihG ?_
      obtain ⟨hGn, hGu⟩ := hG
      constructor
      · intro n hn
        rw [hB2] at hn
        rw [hB1]
        rcases List.mem_append.mp hn with hn | hn
        · exact Nat.lt_succ_of_lt (hGn n hn)
        · rw [List.mem_singleton.mp hn]
          exact Nat.lt_succ_self _
      · intro u hu
        rw [hB4] at hu
        rw [hB1]
        rcases Finset.mem_insert.mp hu with hu | hu
        · rw [hu]
          exact Nat.lt_succ_self _
        · exact Nat.lt_succ_of_lt (hGu u hu)
    · intro hN
      refine ihN ?_
      intro pr hpr
      rw [hB5] at hpr
      rcases List.mem_append.mp hpr with hpr | hpr
      · rcases hN pr hpr with ⟨h1, h2, h3⟩
        refine ⟨by rw [hB2]; exact List.mem_append_left _ h1,
          by rw [hB1]; exact Nat.lt_succ_of_lt h2, ?_⟩
        rw [hstab1 _ h2, h3]
      · rw [List.mem_singleton.mp hpr]
        refine ⟨by rw [hB2]; simp, by rw [hB1]; exact Nat.lt_succ_self _, hB6⟩

lemma cornerFold_spec (p : ℕ) (f : List ℚ) (idx seed : ℕ) :
    ∀ (os : List ℕ) (g : UpdState),
      (∀ o ∈ os, o < g.sk.nextId) → GoodIds g →
      (os.foldl (updateCornerStep p f idx seed) g).sk.p = g.sk.p ∧
      (os.foldl (updateCornerStep p f idx seed) g).sk.eps = g.sk.eps ∧
      (os.foldl (updateCornerStep p f idx seed) g).sk.facets = g.sk.facets ∧
      (os.foldl (updateCornerStep p f idx seed) g).sk.lastReturned = g.sk.lastReturned ∧
      g.sk.nextId ≤ (os.foldl (updateCornerStep p f idx seed) g).sk.nextId ∧
      (∀ m, m < g.sk.nextId →
        (os.foldl (updateCornerStep p f idx seed) g).sk.vmap m = g.sk.vmap m) ∧
      (∃ L, (os.foldl (updateCornerStep p f idx seed) g).sk.nodes = g.sk.nodes ++ L ∧
        ∀ x ∈ L, g.sk.nextId ≤ x ∧
          x < (os.foldl (updateCornerStep p f idx seed) g).sk.nextId ∧
          ∃ o ∈ os, isCorner p (g.sk.vmap o) = true ∧
            (os.foldl (updateCornerStep p f idx seed) g).sk.vmap x
              = updateFacet p idx f (g.sk.vmap o)) ∧
      (os.foldl (updateCornerStep p f idx seed) g).sk.edges = g.sk.edges ∧
      (∃ V, (os.foldl (updateCornerStep p f idx seed) g).newVerts = g.newVerts ++ V ∧
        ∀ pr ∈ V, (∃ o ∈ os, isCorner p (g.sk.vmap o) = true ∧
            pr.2 = updateFacet p idx f (g.sk.vmap o)) ∧
          g.sk.nextId ≤ pr.1 ∧
          pr.1 < (os.foldl (updateCornerStep p f idx seed) g).sk.nextId) ∧
      (∃ M : Finset ℕ,
        (os.foldl (updateCornerStep p f idx seed) g).sk.untested = g.sk.untested ∪ M ∧
        ∀ x ∈ M, g.sk.nextId ≤ x ∧
          x ∈ (os.foldl (updateCornerStep p f idx seed) g).sk.nodes) ∧
      GoodIds (os.foldl (updateCornerStep p f idx seed) g) ∧
      (NewVertsOK g → NewVertsOK (os.foldl (updateCornerStep p f idx seed) g)) ∧
      (∀ o ∈ os, isCorner p (g.sk.vmap o) = true →
        ∃ n2, n2 ∈ (os.foldl (updateCornerStep p f idx seed) g).sk.nodes ∧
          g.sk.nextId ≤ n2 ∧
          n2 < (os.foldl (updateCornerStep p f idx seed) g).sk.nextId ∧
          (os.foldl (updateCornerStep p f idx seed) g).sk.vmap n2
            = updateFacet p idx f (g.sk.vmap o) ∧
          (n2 ∈ (os.foldl (updateCornerStep p f idx seed) g).sk.untested ↔ o ≠ seed)) := by
  intro os
  induction os with
  | nil =>
    intro g _ hG
    refine ⟨rfl, rfl, rfl, rfl, le_refl _, fun m _ => rfl, ⟨[], by simp, by simp⟩,
      rfl, ⟨[], by simp, by simp⟩, ⟨∅, by simp, by simp⟩, hG, fun h => h, by simp⟩
  | cons o rest ih =>
    intro g hos hG
    rw [List.foldl_cons]
    by_cases hc : isCorner p (g.sk.vmap o) = true
    · obtain ⟨hB1, hB2, hB3, hB4, hB5, hB6, hB7, hB8, hB9, hB10, hB11⟩ :=
        (updateCornerStep_basic p f idx seed g o).2 hc
      set g1 := updateCornerStep p f idx seed g o with hg1
      have hstep_le : g.sk.nextId ≤ g1.sk.nextId := by
        rw [hB1]
        exact Nat.le_succ _
      have hos1 : ∀ o2 ∈ rest, o2 < g1.sk.nextId := by
        intro o2 ho2
        rw [hB1]
        exact Nat.lt_succ_of_lt (hos o2 (List.mem_cons_of_mem o ho2))
      have hG1 : GoodIds g1 := by
        obtain ⟨hGn, hGu⟩ := hG
        constructor
        · intro n hn
          rw [hB2] at hn
          rw [hB1]
          rcases List.mem_append.mp hn with hn | hn
          · exact Nat.lt_succ_of_lt (hGn n hn)
          · rw [List.mem_singleton.mp hn]
            exact Nat.lt_succ_self _
        · intro u hu
          rw [hB4] at hu
          rw [hB1]
          by_cases hov : o ≠ seed
          · rw [if_pos hov] at hu
            rcases Finset.mem_insert.mp hu with hu | hu
            · rw [hu]
              exact Nat.lt_succ_self _
            · exact Nat.lt_succ_of_lt (hGu u hu)
          · rw [if_neg hov] at hu
            exact Nat.lt_succ_of_lt (hGu u hu)
      obtain ⟨ih1, ih2, ih3, ih4, ih5, ih6, ⟨L, ihL, ihLb⟩, ihE,
        ⟨V, ihV, ihVd⟩, ⟨M, ihM, ihMb⟩, ihG, ihN, ihC⟩ := ih g1 hos1 hG1
      have hstab1 : ∀ m, m < g.sk.nextId → g1.sk.vmap m = g.sk.vmap m := by
        intro m hm
        exact hB7 m (Nat.ne_of_lt hm)
      have hstab : ∀ m, m < g.sk.nextId →
          (rest.foldl (updateCornerStep p f idx seed) g1).sk.vmap m = g.sk.vmap m := by
        intro m hm
        rw [ih6 m (lt_of_lt_of_le hm hstep_le), hstab1 m hm]
      refine ⟨by rw [ih1, hB8], by rw [ih2, hB9], by rw [ih3, hB10], by rw [ih4, hB11],
        le_trans hstep_le ih5, hstab, ?_, by rw [ihE, hB3], ?_, ?_, ihG, ?_, ?_⟩
      · refine ⟨g.sk.nextId :: L, ?_, ?_⟩
        · rw [ihL, hB2]
          simp
        · intro x hx
          rcases List.mem_cons.mp hx with hx | hx
          · subst hx
            refine ⟨le_refl _, lt_of_lt_of_le (by rw [hB1]; exact Nat.lt_succ_self _) ih5,
              o, List.mem_cons_self _ _, hc, ?_⟩
            rw [ih6 g.sk.nextId (by rw [hB1]; exact Nat.lt_succ_self _), hB6]
          · rcases ihLb x hx with ⟨h1, h2, o2, ho2, hco2, h3⟩
            have ho2lt := hos o2 (List.mem_cons_of_mem o ho2)
            refine ⟨le_trans hstep_le h1, h2, o2, List.mem_cons_of_mem o ho2, ?_, ?_⟩
            · rw [← hstab1 o2 ho2lt]
              exact hco2
            · rw [h3, hstab1 o2 ho2lt]
      · refine ⟨(g.sk.nextId, updateFacet p idx f (g.sk.vmap o)) :: V, ?_, ?_⟩
        · rw [ihV, hB5]
          simp
        · intro pr hpr
          rcases List.mem_cons.mp hpr with hpr | hpr
          · subst hpr
            exact ⟨⟨o, List.mem_cons_self _ _, hc, rfl⟩, le_refl _,
              lt_of_lt_of_le (by rw [hB1]; exact Nat.lt_succ_self _) ih5⟩
          · rcases ihVd pr hpr with ⟨⟨o2, ho2, hco2, hd1⟩, hd2, hd3⟩
            have ho2lt := hos o2 (List.mem_cons_of_mem o ho2)
            refine ⟨⟨o2, List.mem_cons_of_mem o ho2, ?_, ?_⟩,
              le_trans hstep_le hd2, hd3⟩
            · rw [← hstab1 o2 ho2lt]
              exact hco2
            · rw [hd1, hstab1 o2 ho2lt]
      · by_cases hov : o ≠ seed
        · refine ⟨insert g.sk.nextId M, ?_, ?_⟩
          · rw [ihM, hB4, if_pos hov]
            ext x
            simp only [Finset.mem_union, Finset.mem_insert]
            tauto
          · intro x hx
            rcases Finset.mem_insert.mp hx with hx | hx
            · subst hx
              refine ⟨le_refl _, ?_⟩
              rw [ihL, hB2]
              simp
            · rcases ihMb x hx with ⟨h1, h2⟩
              exact ⟨le_trans hstep_le h1, h2⟩
        · refine ⟨M, ?_, ?_⟩
          · rw [ihM, hB4, if_neg hov]
          · intro x hx
            rcases ihMb x hx with ⟨h1, h2⟩
            exact ⟨le_trans hstep_le h1, h2⟩
      · intro hN
        refine ihN ?_
        intro pr hpr
        rw [hB5] at hpr
        rcases List.mem_append.mp hpr with hpr | hpr
        · rcases hN pr hpr with ⟨h1, h2, h3⟩
          refine ⟨by rw [hB2]; exact List.mem_append_left _ h1,
            lt_of_lt_of_le h2 hstep_le, ?_⟩
          rw [hstab1 _ h2, h3]
        · rw [List.mem_singleton.mp hpr]
          refine ⟨by rw [hB2]; simp, by rw [hB1]; exact Nat.lt_succ_self _, hB6⟩
      · intro o2 ho2 hco2
        rcases List.mem_cons.mp ho2 with ho2 | ho2
        · subst ho2
          refine ⟨g.sk.nextId, ?_, le_refl _,
            lt_of_lt_of_le (by rw [hB1]; exact Nat.lt_succ_self _) ih5, ?_, ?_⟩
          · rw [ihL, hB2]
            simp
          · rw [ih6 g.sk.nextId (by rw [hB1]; exact Nat.lt_succ_self _), hB6]
          · rw [ihM]
            constructor
            · intro hmem
              by_contra hcon
              have hoeq := hcon
              rcases Finset.mem_union.mp hmem with hmem | hmem
              · rw [hB4, if_neg (fun hne => hne hoeq)] at hmem
                exact absurd (hG.2 _ hmem) (Nat.lt_irrefl _)
              · rcases ihMb _ hmem with ⟨h1, _⟩
                rw [hB1] at h1
                exact absurd h1 (by simpa using Nat.lt_succ_self g.sk.nextId)
            · intro hov
              refine Finset.mem_union_left _ ?_
              rw [hB4, if_pos hov]
              exact Finset.mem_insert_self _ _
        · have ho2lt := hos o2 (List.mem_cons_of_mem o ho2)
          have hco2' : isCorner p (g1.sk.vmap o2) = true := by
            rw [hstab1 o2 ho2lt]
            exact hco2
          rcases ihC o2 ho2 hco2' with ⟨n2, hn1, hn2, hn3, hn4, hn5⟩
          refine ⟨n2, hn1, le_trans hstep_le hn2, hn3, ?_, hn5⟩
          rw [hn4, hstab1 o2 ho2lt]
    · have hid : updateCornerStep p f idx seed g o = g :=
        (updateCornerStep_basic p f idx seed g o).1 (Bool.eq_false_iff.mpr hc ▸ rfl)
      rw [hid]
      obtain ⟨ih1, ih2, ih3, ih4, ih5, ih6, ihL, ihE, ihV, ihM, ihG, ihN, ihC⟩ :=
        ih g (fun o2 ho2 => hos o2 (List.mem_cons_of_mem o ho2)) hG
      refine ⟨ih1, ih2, ih3, ih4, ih5, ih6, ?_, ihE, ?_, ihM, ihG, ihN, ?_⟩
      · obtain ⟨L, ihL1, ihL2⟩ := ihL
        refine ⟨L, ihL1, ?_⟩
        intro x hx
        rcases ihL2 x hx with ⟨h1, h2, o2, ho2, h3, h4⟩
        exact ⟨h1, h2, o2, List.mem_cons_of_mem o ho2, h3, h4⟩
      · obtain ⟨V, ihV1, ihV2⟩ := ihV
        refine ⟨V, ihV1, ?_⟩
        intro pr hpr
        rcases ihV2 pr hpr with ⟨⟨o2, ho2, h1, h2⟩, h3, h4⟩
        exact ⟨⟨o2, List.mem_cons_of_mem o ho2, h1, h2⟩, h3, h4⟩
      · intro o2 ho2 hco2
        rcases List.mem_cons.mp ho2 with ho2 | ho2
        · subst ho2
          exact absurd hco2 hc
        · exact ihC o2 ho2 hco2

lemma cutSplit_cases (O : Finset ℕ) (e : ℕ × ℕ) :
    cutSplit O e = (e.1, e.2) ∨ cutSplit O e = (e.2, e.1) := by
  unfold cutSplit
  split
  · exact Or.inl rfl
  · exact Or.inr rfl

/-- Classification of a recorded cut edge at the end of the scan: it is a
graph edge whose `cutSplit` yields a marked (obsolete) endpoint and a
surviving endpoint that fails the strict test. -/
lemma cut_classify {p : ℕ} {eps : ℚ} {f : List ℚ} {vm : ℕ → WeightSpaceVertex}
    {edges : List (ℕ × ℕ)} {nodes : List ℕ} {seed : ℕ} {unt0 : Finset ℕ}
    {st : ScanState} (h : ScanInv p eps f vm edges nodes seed unt0 st)
    {e : ℕ × ℕ} (he : e ∈ st.cuts) :
    e ∈ edges ∧
    (cutSplit st.obs e).2 ∈ st.obs ∧
    (cutSplit st.obs e).1 ∉ st.obs ∧
    isMakingObsolete p eps f (vm (cutSplit st.obs e).1) true = false := by
  obtain ⟨hseed, hnodes, hqueue, hstrict, hunt, hcuts⟩ := h
  rcases hcuts e he with ⟨hmem, hL | hR⟩
  · obtain ⟨h1, h2, h3⟩ := hL
    have h4 : e.2 ∉ st.obs := by
      intro hcon
      rcases hstrict e.2 hcon with hc | hc
      · exact h3 hc
      · rw [hc] at h2
        cases h2
    have hsplit : cutSplit st.obs e = (e.2, e.1) := by
      unfold cutSplit
      rw [if_neg (fun hcon => hcon h1)]
    rw [hsplit]
    exact ⟨hmem, h1, h4, h2⟩
  · obtain ⟨h1, h2, h3⟩ := hR
    have h4 : e.1 ∉ st.obs := by
      intro hcon
      rcases hstrict e.1 hcon with hc | hc
      · exact h3 hc
      · rw [hc] at h2
        cases h2
    have hsplit : cutSplit st.obs e = (e.1, e.2) := by
      unfold cutSplit
      rw [if_pos h4]
    rw [hsplit]
    exact ⟨hmem, h1, h4, h2⟩

lemma newEdgesAux_mem (p : ℕ) :
    ∀ (l prev : List (ℕ × WeightSpaceVertex)) (ed : ℕ × ℕ),
      ed ∈ createNewEdgesAux p prev l →
      ∃ a b : ℕ × WeightSpaceVertex, (a ∈ prev ∨ a ∈ l) ∧ b ∈ l ∧
        isNeighbour p a.2 b.2 = true ∧ ed = (a.1, b.1) := by
  intro l
  induction l with
  | nil =>
    intro prev ed hed
    simp [createNewEdgesAux] at hed
  | cons q rest ih =>
    intro prev ed hed
    rw [createNewEdgesAux] at hed
    rcases List.mem_append.mp hed with hed | hed
    · rcases List.mem_map.mp hed with ⟨pv, hpv, hprev⟩
      rcases List.mem_filter.mp hpv with ⟨hpv1, hpv2⟩
      exact ⟨pv, q, Or.inl hpv1, List.mem_cons_self _ _, hpv2, hprev.symm⟩
    · rcases ih (prev ++ [q]) ed hed with ⟨a, b, ha, hb, hn, heq⟩
      refine ⟨a, b, ?_, List.mem_cons_of_mem q hb, hn, heq⟩
      rcases ha with ha | ha
      · rcases List.mem_append.mp ha with ha | ha
        · exact Or.inl ha
        · exact Or.inr (by rw [List.mem_singleton.mp ha]; exact List.mem_cons_self _ _)
      · exact Or.inr (List.mem_cons_of_mem q ha)

/-- Full characterization of one run of the update algorithm from a
well-formed state: fields, surviving nodes, removal of the obsolete
region, classification of the final nodes and edges, re-added corners, and
identifier sanity. -/
lemma addFacet_spec (s : Skeleton) (f : List ℚ) (seed : ℕ)
    (hInv : SkelInv s) (hseed : seed ∈ s.nodes) :
    (s.addFacet f seed).p = s.p ∧
    (s.addFacet f seed).eps = s.eps ∧
    (∀ n ∈ s.nodes, n ∉ (s.runScan f seed).obs →
      n ∈ (s.addFacet f seed).nodes ∧ (s.addFacet f seed).vmap n = s.vmap n) ∧
    (∀ n ∈ (s.runScan f seed).obs, n ∉ (s.addFacet f seed).nodes) ∧
    (∀ n ∈ (s.addFacet f seed).nodes,
      (n ∈ s.nodes ∧ n ∉ (s.runScan f seed).obs ∧ (s.addFacet f seed).vmap n = s.vmap n) ∨
      (n ∉ s.nodes ∧
        ((∃ e ∈ (s.runScan f seed).cuts,
            (s.addFacet f seed).vmap n = combineVertices s.p f s.facets.length
              (s.vmap (cutSplit (s.runScan f seed).obs e).2)
              (s.vmap (cutSplit (s.runScan f seed).obs e).1)) ∨
         (∃ o ∈ (s.runScan f seed).obs, isCorner s.p (s.vmap o) = true ∧
            (s.addFacet f seed).vmap n = updateFacet s.p s.facets.length f (s.vmap o))))) ∧
    (∀ o ∈ (s.runScan f seed).obs, isCorner s.p (s.vmap o) = true →
      ∃ n2, n2 ∈ (s.addFacet f seed).nodes ∧ n2 ∉ s.nodes ∧
        (s.addFacet f seed).vmap n2 = updateFacet s.p s.facets.length f (s.vmap o) ∧
        (n2 ∈ (s.addFacet f seed).untested ↔ o ≠ seed)) ∧
    (∀ ed ∈ (s.addFacet f seed).edges,
      (ed ∈ s.edges ∧ ed.1 ∉ (s.runScan f seed).obs ∧ ed.2 ∉ (s.runScan f seed).obs ∧
        ed.1 ∈ s.nodes ∧ ed.2 ∈ s.nodes ∧
        (s.addFacet f seed).vmap ed.1 = s.vmap ed.1 ∧
        (s.addFacet f seed).vmap ed.2 = s.vmap ed.2) ∨
      (∃ e ∈ (s.runScan f seed).cuts, ed.2 = (cutSplit (s.runScan f seed).obs e).1 ∧
        ed.1 ∈ (s.addFacet f seed).nodes ∧ ed.2 ∈ s.nodes ∧
        ed.2 ∉ (s.runScan f seed).obs ∧
        (s.addFacet f seed).vmap ed.1 = combineVertices s.p f s.facets.length
          (s.vmap (cutSplit (s.runScan f seed).obs e).2)
          (s.vmap (cutSplit (s.runScan f seed).obs e).1) ∧
        (s.addFacet f seed).vmap ed.2 = s.vmap ed.2) ∨
      (ed.1 ∈ (s.addFacet f seed).nodes ∧ ed.2 ∈ (s.addFacet f seed).nodes ∧
        isNeighbour s.p ((s.addFacet f seed).vmap ed.1)
          ((s.addFacet f seed).vmap ed.2) = true)) ∧
    (∀ n ∈ (s.addFacet f seed).nodes, n < (s.addFacet f seed).nextId) ∧
    (∀ u ∈ (s.addFacet f seed).untested, u ∈ (s.addFacet f seed).nodes) := by
  obtain ⟨hEnds, hValid, hFac, hIds, hUnt⟩ := hInv
  have hScan := runScan_inv s f seed hseed hEnds
  set st := s.runScan f seed with hstdef
  obtain ⟨hSseed, hSnodes, hSqueue, hSstrict, hSunt, hScuts⟩ := hScan
  set idx := s.facets.length with hidxdef
  set s1 : Skeleton := ({ s with facets := s.facets ++ [f], untested := st.unt, nNew := 0, nProc := st.nproc } : Skeleton) with hs1def
  set g0 : UpdState := ⟨s1, []⟩ with hg0def
  set g2 := st.cuts.foldl (makeIntermediateVertex s.p f idx st.obs) g0 with hg2def
  set os := obsList s.nextId st.obs with hosdef
  set g3 := os.foldl (updateCornerStep s.p f idx seed) g2 with hg3def
  have hAn : (s.addFacet f seed).nodes
      = g3.sk.nodes.filter (fun n => decide (n ∉ st.obs)) := rfl
  have hAe : (s.addFacet f seed).edges
      = (g3.sk.edges ++ createNewEdgesAux s.p [] g3.newVerts).filter
          (fun e => decide (e.1 ∉ st.obs) && decide (e.2 ∉ st.obs)) := rfl
  have hAv : (s.addFacet f seed).vmap = g3.sk.vmap := rfl
  have hAu : (s.addFacet f seed).untested = g3.sk.untested := rfl
  have hAx : (s.addFacet f seed).nextId = g3.sk.nextId := rfl
  have hg0nodes : g0.sk.nodes = s.nodes := rfl
  have hg0vmap : g0.sk.vmap = s.vmap := rfl
  have hg0next : g0.sk.nextId = s.nextId := rfl
  have hg0edges : g0.sk.edges = s.edges := rfl
  have hg0unt : g0.sk.untested = st.unt := rfl
  have hg0nv : g0.newVerts = [] := rfl
  have hobs_lt : ∀ x ∈ st.obs, x < s.nextId := fun x hx => hIds x (hSnodes x hx)
  have hfresh : ∀ x, s.nextId ≤ x → x ∉ st.obs := by
    intro x hx hcon
    exact absurd (hobs_lt x hcon) (not_lt.mpr hx)
  have hparts : ∀ e ∈ st.cuts, (cutSplit st.obs e).1 < g0.sk.nextId ∧
      (cutSplit st.obs e).2 < g0.sk.nextId := by
    intro e he
    have hmem : e ∈ s.edges := (hScuts e he).1
    rcases hEnds e hmem with ⟨h1, h2⟩
    rw [hg0next]
    rcases cutSplit_cases st.obs e with hc | hc <;> rw [hc]
    · exact ⟨hIds _ h1, hIds _ h2⟩
    · exact ⟨hIds _ h2, hIds _ h1⟩
  obtain ⟨i_p, i_eps, i_fac, i_lr, i_next, i_stab, ⟨L1, hL1, hL1d⟩, ⟨E1, hE1, hE1d⟩,
    ⟨V1, hV1, hV1d⟩, ⟨M1, hM1, hM1d⟩, i_good, i_nv⟩ :=
    interFold_spec s.p f idx st.obs st.cuts g0 hparts
  have hG0 : GoodIds g0 := by
    constructor
    · intro n hn
      rw [hg0nodes] at hn
      rw [hg0next]
      exact hIds n hn
    · intro u hu
      rw [hg0unt] at hu
      rw [hg0next]
      exact hIds u (hUnt u (hSunt u hu).2)
  have hN0 : NewVertsOK g0 := by
    intro pr hpr
    rw [hg0nv] at hpr
    cases hpr
  have hG2 := i_good hG0
  have hN2 := i_nv hN0
  have hsnext_le_g2 : s.nextId ≤ g2.sk.nextId := by
    rw [← hg0next]
    exact i_next
  have hos_lt : ∀ o ∈ os, o < g2.sk.nextId := by
    intro o ho
    exact lt_of_lt_of_le (mem_obsList.mp ho).1 hsnext_le_g2
  obtain ⟨c_p, c_eps, c_fac, c_lr, c_next, c_stab, ⟨L2, hL2, hL2d⟩, c_edges,
    ⟨V2, hV2, hV2d⟩, ⟨M2, hM2, hM2d⟩, c_good, c_nv, c_corner⟩ :=
    cornerFold_spec s.p f idx seed os g2 hos_lt hG2
  have hN3 := c_nv hN2
  have hstabi : ∀ m, m < s.nextId → g2.sk.vmap m = s.vmap m := by
    intro m hm
    rw [← hg0vmap]
    refine i_stab m ?_
    rw [hg0next]
    exact hm
  have hstabA : ∀ m, m < s.nextId → g3.sk.vmap m = s.vmap m := by
    intro m hm
    rw [c_stab m (lt_of_lt_of_le hm hsnext_le_g2), hstabi m hm]
  have hnodes3 : g3.sk.nodes = s.nodes ++ (L1 ++ L2) := by
    rw [hL2, hL1, hg0nodes, List.append_assoc]
  have hmemA : ∀ n, n ∈ (s.addFacet f seed).nodes ↔ (n ∈ g3.sk.nodes ∧ n ∉ st.obs) := by
    intro n
    rw [hAn, List.mem_filter]
    simp
  have hsurv : ∀ n ∈ s.nodes, n ∉ st.obs →
      n ∈ (s.addFacet f seed).nodes ∧ (s.addFacet f seed).vmap n = s.vmap n := by
    intro n hn hno
    refine ⟨(hmemA n).mpr ⟨?_, hno⟩, ?_⟩
    · rw [hnodes3]
      exact List.mem_append_left _ hn
    · rw [hAv]
      exact hstabA n (hIds n hn)
  have hfreshNV : ∀ pr ∈ g3.newVerts, s.nextId ≤ pr.1 := by
    intro pr hpr
    rw [hV2, hV1, hg0nv, List.nil_append] at hpr
    rcases List.mem_append.mp hpr with hpr | hpr
    · rcases hV1d pr hpr with ⟨_, _, _, h, _⟩
      rw [hg0next] at h
      exact h
    · rcases hV2d pr hpr with ⟨_, h, _⟩
      exact le_trans hsnext_le_g2 h
  have hAp : (s.addFacet f seed).p = s.p := by
    show g3.sk.p = s.p
    rw [c_p, i_p]
  have hAeps : (s.addFacet f seed).eps = s.eps := by
    show g3.sk.eps = s.eps
    rw [c_eps, i_eps]
  refine ⟨hAp, hAeps, hsurv, ?_, ?_, ?_, ?_, ?_, ?_⟩
  · intro n hn hcon
    exact ((hmemA n).mp hcon).2 hn
  · -- node classification
    intro n hn
    obtain ⟨hg3n, hnobs⟩ := (hmemA n).mp hn
    rw [hnodes3] at hg3n
    rcases List.mem_append.mp hg3n with hns | hnl
    · exact Or.inl ⟨hns, hnobs, (hsurv n hns hnobs).2⟩
    · rcases List.mem_append.mp hnl with hn1 | hn2
      · rcases hL1d n hn1 with ⟨hge, hlt2, e, he, hvm⟩
        rw [hg0next] at hge
        refine Or.inr ⟨fun hcon => absurd (hIds n hcon) (not_lt.mpr hge), Or.inl ⟨e, he, ?_⟩⟩
        rw [hAv, c_stab n hlt2, hvm, hg0vmap]
      · rcases hL2d n hn2 with ⟨hge, hlt3, o, ho, hco, hvm⟩
        have hoobs : o ∈ st.obs := (mem_obsList.mp ho).2
        have holt : o < s.nextId := hobs_lt o hoobs
        have hge' : s.nextId ≤ n := le_trans hsnext_le_g2 hge
        refine Or.inr ⟨fun hcon => absurd (hIds n hcon) (not_lt.mpr hge'),
          Or.inr ⟨o, hoobs, ?_, ?_⟩⟩
        · rw [← hstabi o holt]
          exact hco
        · rw [hAv, hvm, hstabi o holt]
  · -- corner re-adds
    intro o ho hco
    have holt : o < s.nextId := hobs_lt o ho
    have hoos : o ∈ os := mem_obsList.mpr ⟨holt, ho⟩
    have hco2 : isCorner s.p (g2.sk.vmap o) = true := by
      rw [hstabi o holt]
      exact hco
    rcases c_corner o hoos hco2 with ⟨n2, hn2mem, hn2ge, hn2lt, hn2vm, hn2unt⟩
    have hn2ge' : s.nextId ≤ n2 := le_trans hsnext_le_g2 hn2ge
    refine ⟨n2, (hmemA n2).mpr ⟨hn2mem, hfresh n2 hn2ge'⟩,
      fun hcon => absurd (hIds n2 hcon) (not_lt.mpr hn2ge'), ?_, ?_⟩
    · rw [hAv, hn2vm, hstabi o holt]
    · rw [hAu]
      exact hn2unt
  · -- edge classification
    intro ed hed
    rw [hAe, List.mem_filter] at hed
    obtain ⟨hmem, hpred⟩ := hed
    have hno1 : ed.1 ∉ st.obs := by
      have := (Bool.and_eq_true _ _).mp hpred
      simpa using this.1
    have hno2 : ed.2 ∉ st.obs := by
      have := (Bool.and_eq_true _ _).mp hpred
      simpa using this.2
    rcases List.mem_append.mp hmem with hmem | hmem
    · rw [c_edges, hE1, hg0edges] at hmem
      rcases List.mem_append.mp hmem with hmem | hmem
      · rcases hEnds ed hmem with ⟨h1, h2⟩
        refine Or.inl ⟨hmem, hno1, hno2, h1, h2, ?_, ?_⟩
        · rw [hAv]
          exact hstabA _ (hIds _ h1)
        · rw [hAv]
          exact hstabA _ (hIds _ h2)
      · rcases hE1d ed hmem with ⟨e, he, hd1, hd2, hd3, hd4, hd5⟩
        rw [hg0next] at hd2
        rcases cut_classify ⟨hSseed, hSnodes, hSqueue, hSstrict, hSunt, hScuts⟩ he
          with ⟨hce, hcobs, hcadj, hcstrict⟩
        have hadjnode : (cutSplit st.obs e).1 ∈ s.nodes := by
          rcases hEnds e hce with ⟨h1, h2⟩
          rcases cutSplit_cases st.obs e with hc | hc <;> rw [hc]
          · exact h1
          · exact h2
        refine Or.inr (Or.inl ⟨e, he, hd1, ?_, hd1 ▸ hadjnode, hd1 ▸ hcadj, ?_, ?_⟩)
        · refine (hmemA ed.1).mpr ⟨?_, hfresh ed.1 hd2⟩
          rw [hL2]
          exact List.mem_append_left _ hd4
        · rw [hAv, c_stab ed.1 hd3, hd5, hg0vmap]
        · rw [hAv, hd1]
          exact hstabA _ (hIds _ hadjnode)
    · rcases newEdgesAux_mem s.p g3.newVerts [] ed hmem with ⟨a, b, ha, hb, hnb, heq⟩
      have ha2 : a ∈ g3.newVerts := by
        rcases ha with ha | ha
        · cases ha
        · exact ha
      rcases hN3 a ha2 with ⟨ha3, ha4, ha5⟩
      rcases hN3 b hb with ⟨hb3, hb4, hb5⟩
      have haobs : a.1 ∉ st.obs := hfresh a.1 (hfreshNV a ha2)
      have hbobs : b.1 ∉ st.obs := hfresh b.1 (hfreshNV b hb)
      refine Or.inr (Or.inr ⟨?_, ?_, ?_⟩)
      · rw [heq]
        exact (hmemA a.1).mpr ⟨ha3, haobs⟩
      · rw [heq]
        exact (hmemA b.1).mpr ⟨hb3, hbobs⟩
      · rw [heq, hAv]
        show isNeighbour s.p (g3.sk.vmap a.1) (g3.sk.vmap b.1) = true
        rw [ha5, hb5]
        exact hnb
  · -- identifier bound
    intro n hn
    rw [hAx]
    exact c_good.1 n ((hmemA n).mp hn).1
  · -- untested nodes live
    intro u hu
    rw [hAu, hM2, hM1, hg0unt] at hu
    rcases Finset.mem_union.mp hu with hu | hu
    · rcases Finset.mem_union.mp hu with hu | hu
      · rcases hSunt u hu with ⟨h1, h2⟩
        exact ((hsurv u (hUnt u h2) h1).1)
      · rcases hM1d u hu with ⟨h1, h2⟩
        rw [hg0next] at h1
        refine (hmemA u).mpr ⟨?_, hfresh u h1⟩
        rw [hL2]
        exact List.mem_append_left _ h2
    · rcases hM2d u hu with ⟨h1, h2⟩
      exact (hmemA u).mpr ⟨h2, hfresh u (le_trans hsnext_le_g2 h1)⟩

lemma combine_isNeighbour (p : ℕ) (f : List ℚ) (idx : ℕ)
    (vObs vAdj : WeightSpaceVertex) (hidx : idx ∉ vAdj.facets)
    (hn : (vObs.facets ∩ vAdj.facets).card = p - 1) :
    isNeighbour p (combineVertices p f idx vObs vAdj) vAdj = true := by
  unfold isNeighbour combineVertices
  rw [decide_eq_true_eq]
  have hset : ((vObs.facets ∩ vAdj.facets) ∪ {idx}) ∩ vAdj.facets
      = vObs.facets ∩ vAdj.facets := by
    ext x
    simp only [Finset.mem_inter, Finset.mem_union, Finset.mem_singleton]
    constructor
    · rintro ⟨hx1 | hx2, hx3⟩
      · exact hx1
      · exact absurd (hx2 ▸ hx3) hidx
    · intro hx
      exact ⟨Or.inl hx, hx.2⟩
  show (((vObs.facets ∩ vAdj.facets) ∪ {idx}) ∩ vAdj.facets).card = p - 1
  rw [hset]
  exact hn

lemma isNeighbour_card {p : ℕ} {a b : WeightSpaceVertex}
    (h : isNeighbour p a b = true) : (a.facets ∩ b.facets).card = p - 1 := by
  unfold isNeighbour at h
  exact of_decide_eq_true h

/-- C1: global adjacency invariant.  After construction the skeleton graph
is valid, and from any state satisfying the well-formedness invariant with
the seed (`last_returned_node_` or a node found by the thorough scan) in
the graph, every call to `addFacet` — however triggered — produces a state
on which `graphIsValid` returns `true` and which again satisfies the
invariant, so the adjacency test holds on the endpoints of every edge
after every update. -/
theorem graphIsValid_after_addFacet :
    (∀ (p : ℕ) (eps : ℚ) (pt : List ℚ) (b : Bool) (ui : ℕ),
      (initSkeleton p eps pt b ui).graphIsValid = true) ∧
    (∀ (s : Skeleton) (f : List ℚ) (seed : ℕ), SkelInv s → seed ∈ s.nodes →
      (s.addFacet f seed).graphIsValid = true ∧ SkelInv (s.addFacet f seed)) := by
  constructor
  · intro p eps pt b ui
    rfl
  · intro s f seed hInv hseed
    obtain ⟨hAp, hAeps, hsurv, hremoved, hclass, hcorner, hedge, hids, huntested⟩ :=
      addFacet_spec s f seed hInv hseed
    obtain ⟨hEnds, hValid, hFac, hIds, hUnt⟩ := hInv
    have hScan := runScan_inv s f seed hseed hEnds
    have hcutparts : ∀ e ∈ (s.runScan f seed).cuts,
        (cutSplit (s.runScan f seed).obs e).1 ∈ s.nodes ∧
        (cutSplit (s.runScan f seed).obs e).2 ∈ s.nodes := by
      intro e he
      have hmem : e ∈ s.edges := (cut_classify hScan he).1
      rcases hEnds e hmem with ⟨h1, h2⟩
      rcases cutSplit_cases (s.runScan f seed).obs e with hc | hc <;> rw [hc]
      · exact ⟨h1, h2⟩
      · exact ⟨h2, h1⟩
    have hcutcard : ∀ e ∈ (s.runScan f seed).cuts,
        ((s.vmap (cutSplit (s.runScan f seed).obs e).2).facets ∩
          (s.vmap (cutSplit (s.runScan f seed).obs e).1).facets).card = s.p - 1 := by
      intro e he
      have hmem : e ∈ s.edges := (cut_classify hScan he).1
      have hv := isNeighbour_card (hValid e hmem)
      rcases cutSplit_cases (s.runScan f seed).obs e with hc | hc <;> rw [hc]
      · rw [Finset.inter_comm]
        exact hv
      · exact hv
    have hedgevalid : ∀ ed ∈ (s.addFacet f seed).edges,
        isNeighbour s.p ((s.addFacet f seed).vmap ed.1)
          ((s.addFacet f seed).vmap ed.2) = true := by
      intro ed hed
      rcases hedge ed hed with hold | hinter | hnew
      · obtain ⟨hmem, _, _, _, _, hv1, hv2⟩ := hold
        rw [hv1, hv2]
        exact hValid ed hmem
      · obtain ⟨e, he, hd1, _, hadjnode, _, hv1, hv2⟩ := hinter
        rw [hv1, hv2, hd1]
        refine combine_isNeighbour s.p f s.facets.length _ _ ?_ (hcutcard e he)
        intro hcon
        have := hFac _ ((hcutparts e he).1) hcon
        simp at this
      · exact hnew.2.2
    refine ⟨?_, ?_⟩
    · unfold Skeleton.graphIsValid
      rw [List.all_eq_true]
      intro ed hed
      rw [hAp]
      exact hedgevalid ed hed
    · have hnodesA : ∀ ed ∈ (s.addFacet f seed).edges,
          ed.1 ∈ (s.addFacet f seed).nodes ∧ ed.2 ∈ (s.addFacet f seed).nodes := by
        intro ed hed
        rcases hedge ed hed with hold | hinter | hnew
        · obtain ⟨hmem, hn1, hn2, hm1, hm2, _, _⟩ := hold
          exact ⟨(hsurv ed.1 hm1 hn1).1, (hsurv ed.2 hm2 hn2).1⟩
        · obtain ⟨e, he, hd1, hin1, hm2, hn2, _, _⟩ := hinter
          exact ⟨hin1, (hsurv ed.2 hm2 hn2).1⟩
        · exact ⟨hnew.1, hnew.2.1⟩
      refine ⟨hnodesA, ?_, ?_, hids, huntested⟩
      · intro ed hed
        rw [hAp]
        exact hedgevalid ed hed
      · intro n hn
        have hlen : (s.addFacet f seed).facets.length = s.facets.length + 1 := by
          rw [addFacet_facets]
          simp
        rw [hlen]
        rcases hclass n hn with hsurv2 | ⟨hnot, hinter | hcorner2⟩
        · refine subset_trans (hsurv2.2.2 ▸ hFac n hsurv2.1) ?_
          intro x hx
          rw [Finset.mem_range] at hx ⊢
          exact Nat.lt_succ_of_lt hx
        · obtain ⟨e, he, hvm⟩ := hinter
          rw [hvm]
          show ((s.vmap (cutSplit (s.runScan f seed).obs e).2).facets ∩
              (s.vmap (cutSplit (s.runScan f seed).obs e).1).facets
              ∪ {s.facets.length}) ⊆ Finset.range (s.facets.length + 1)
          intro x hx
          rcases Finset.mem_union.mp hx with hx | hx
          · have hx1 := Finset.mem_inter.mp hx
            have := hFac _ ((hcutparts e he).2) hx1.1
            rw [Finset.mem_range] at this ⊢
            exact Nat.lt_succ_of_lt this
          · rw [Finset.mem_singleton.mp hx, Finset.mem_range]
            exact Nat.lt_succ_self _
        · obtain ⟨o, ho, hco, hvm⟩ := hcorner2
          rw [hvm]
          show insert s.facets.length
              ((s.vmap o).facets.erase ((s.vmap o).facets.max.unbot' 0))
              ⊆ Finset.range (s.facets.length + 1)
          intro x hx
          rcases Finset.mem_insert.mp hx with hx | hx
          · rw [hx, Finset.mem_range]
            exact Nat.lt_succ_self _
          · have hobsnode : o ∈ s.nodes := by
              obtain ⟨_, hSnodes, _, _, _, _⟩ := hScan
              exact hSnodes o ho
            have := hFac o hobsnode (Finset.mem_of_mem_erase hx)
            rw [Finset.mem_range] at this ⊢
            exact Nat.lt_succ_of_lt this

unseal Rat.add Rat.mul Rat.sub Rat.inv in
/-- Witness for C1 on the demo skeleton: cutting with the point facet
`(1, 1, −1)` seeded at node `0` yields a valid graph and preserves the
invariant. -/
theorem graphIsValid_after_addFacet_witness :
    SkelInv demoSkeleton ∧ (0 : ℕ) ∈ demoSkeleton.nodes ∧
    (demoSkeleton.addFacet [1, 1, -1] 0).graphIsValid = true ∧
    SkelInv (demoSkeleton.addFacet [1, 1, -1] 0) :=
  ⟨by decide, by decide,
   (graphIsValid_after_addFacet.2 demoSkeleton [1, 1, -1] 0 (by decide) (by decide)).1,
   (graphIsValid_after_addFacet.2 demoSkeleton [1, 1, -1] 0 (by decide) (by decide)).2⟩

/-! ### Claim C3: corner handling -/

unseal Rat.add Rat.mul Rat.sub Rat.inv in
/-- Counterexample to C3: on the demo skeleton, cutting with point facet
`(1, 1, −1)` makes corner node `0` obsolete, and after the update the
corner's old graph node `0` is gone from the graph — an obsolete corner
does not keep its graph node, and obsolete corner nodes are removed just
like non-corner ones (`updateGraph` erases every obsolete node after
`updateCorner` re-added the corner vertex under a fresh node). -/
theorem corner_node_not_kept :
    isCorner 2 (demoSkeleton.vmap 0) = true ∧
    0 ∈ (demoSkeleton.runScan [1, 1, -1] 0).obs ∧
    0 ∉ (demoSkeleton.addFacet [1, 1, -1] 0).nodes ∧
    (demoSkeleton.addFacet [1, 1, -1] 0).nodes = [2, 3] := by
  refine ⟨by decide, by decide, by decide, by decide⟩

/-- C3 amended: every obsolete node — corner or not — is removed from the
graph; for every obsolete corner the vertex object survives mutated in
place (`updateFacet` swaps the lost facet for the new cutting facet) and
is re-married to a fresh graph node, which is marked untested exactly when
the corner's old node is not the seed (`last_returned_node_`). -/
theorem updateCorner_amended (s : Skeleton) (f : List ℚ) (seed : ℕ)
    (hInv : SkelInv s) (hseed : seed ∈ s.nodes) :
    ∀ o ∈ (s.runScan f seed).obs,
      o ∉ (s.addFacet f seed).nodes ∧
      (isCorner s.p (s.vmap o) = true →
        ∃ n2, n2 ∈ (s.addFacet f seed).nodes ∧ n2 ∉ s.nodes ∧
          (s.addFacet f seed).vmap n2 = updateFacet s.p s.facets.length f (s.vmap o) ∧
          (n2 ∈ (s.addFacet f seed).untested ↔ o ≠ seed)) := by
  obtain ⟨hAp, hAeps, hsurv, hremoved, hclass, hcorner, hedge, hids, huntested⟩ :=
    addFacet_spec s f seed hInv hseed
  intro o ho
  exact ⟨hremoved o ho, hcorner o ho⟩

unseal Rat.add Rat.mul Rat.sub Rat.inv in
/-- Witness for C3 (amended) on the demo skeleton: obsolete corner `1`
(not the seed) is removed from the graph and its mutated vertex reappears
under a fresh untested node. -/
theorem updateCorner_amended_witness :
    SkelInv demoSkeleton ∧ (0 : ℕ) ∈ demoSkeleton.nodes ∧
    (1 : ℕ) ∈ (demoSkeleton.runScan [1, 1, -1] 0).obs ∧
    (1 ∉ (demoSkeleton.addFacet [1, 1, -1] 0).nodes ∧
      (isCorner demoSkeleton.p (demoSkeleton.vmap 1) = true →
        ∃ n2, n2 ∈ (demoSkeleton.addFacet [1, 1, -1] 0).nodes ∧ n2 ∉ demoSkeleton.nodes ∧
          (demoSkeleton.addFacet [1, 1, -1] 0).vmap n2
            = updateFacet demoSkeleton.p demoSkeleton.facets.length [1, 1, -1]
                (demoSkeleton.vmap 1) ∧
          (n2 ∈ (demoSkeleton.addFacet [1, 1, -1] 0).untested ↔ (1 : ℕ) ≠ 0))) :=
  ⟨by decide, by decide, by decide,
   updateCorner_amended demoSkeleton [1, 1, -1] 0 (by decide) (by decide) 1 (by decide)⟩

/-! ### Claim C10: idempotence of cuts -/

lemma isMakingObsolete_true_iff (p : ℕ) (eps : ℚ) (f : List ℚ)
    (v : WeightSpaceVertex) :
    (isMakingObsolete p eps f v true = true ↔ lhsVal p f v < 0) ∧
    (isMakingObsolete p eps f v false = true ↔ lhsVal p f v < -eps) := by
  unfold isMakingObsolete
  simp

lemma getD_map_range {g : ℕ → ℚ} {j p : ℕ} (h : j < p) :
    ((List.range p).map g).getD j 0 = g j := by
  rw [List.getD_eq_getElem?_getD, List.getElem?_map, List.getElem?_range h]
  rfl

lemma lhsVal_combine (p : ℕ) (f : List ℚ) (idx : ℕ)
    (vObs vAdj : WeightSpaceVertex) :
    lhsVal p f (combineVertices p f idx vObs vAdj)
      = (lhsVal p f vAdj / (lhsVal p f vAdj - lhsVal p f vObs)) * lhsVal p f vObs
        + (1 - lhsVal p f vAdj / (lhsVal p f vAdj - lhsVal p f vObs)) * lhsVal p f vAdj := by
  set a := lhsVal p f vObs with ha
  set b := lhsVal p f vAdj with hb
  set h := b / (b - a) with hh
  have ha2 : a = f.getD p 0 * vObs.wov
      + ∑ j ∈ Finset.range p, vObs.weight.getD j 0 * f.getD j 0 := ha
  have hb2 : b = f.getD p 0 * vAdj.wov
      + ∑ j ∈ Finset.range p, vAdj.weight.getD j 0 * f.getD j 0 := hb
  show lhsVal p f
      ⟨(List.range p).map (fun j => h * vObs.weight.getD j 0 + (1 - h) * vAdj.weight.getD j 0),
        h * vObs.wov + (1 - h) * vAdj.wov,
        (vObs.facets ∩ vAdj.facets) ∪ {idx}⟩ = h * a + (1 - h) * b
  unfold lhsVal
  have hsum : (∑ j ∈ Finset.range p,
      ((List.range p).map (fun j => h * vObs.weight.getD j 0
        + (1 - h) * vAdj.weight.getD j 0)).getD j 0 * f.getD j 0)
      = ∑ j ∈ Finset.range p,
        (h * vObs.weight.getD j 0 + (1 - h) * vAdj.weight.getD j 0) * f.getD j 0 :=
    Finset.sum_congr rfl (fun j hj => by rw [getD_map_range (Finset.mem_range.mp hj)])
  rw [hsum]
  have hsplit : (∑ j ∈ Finset.range p,
      (h * vObs.weight.getD j 0 + (1 - h) * vAdj.weight.getD j 0) * f.getD j 0)
      = h * (∑ j ∈ Finset.range p, vObs.weight.getD j 0 * f.getD j 0)
        + (1 - h) * (∑ j ∈ Finset.range p, vAdj.weight.getD j 0 * f.getD j 0) := by
    rw [Finset.mul_sum, Finset.mul_sum, ← Finset.sum_add_distrib]
    refine Finset.sum_congr rfl (fun j _ => ?_)
    ring
  rw [hsplit, ha2, hb2]
  ring

/-- An intermediate vertex on a cut edge lies exactly on the new facet:
its left hand side value vanishes. -/
lemma lhsVal_combine_zero (p : ℕ) (f : List ℚ) (idx : ℕ)
    (vObs vAdj : WeightSpaceVertex)
    (hobs : lhsVal p f vObs < 0) (hadj : 0 ≤ lhsVal p f vAdj) :
    lhsVal p f (combineVertices p f idx vObs vAdj) = 0 := by
  rw [lhsVal_combine]
  have hpos : 0 < lhsVal p f vAdj - lhsVal p f vObs :=
    sub_pos.mpr (lt_of_lt_of_le hobs hadj)
  field_simp
  ring

/-- An updated corner lies exactly on the new facet whenever the facet's
objective coefficient is nonzero. -/
lemma lhsVal_updateFacet (p : ℕ) (idx : ℕ) (f : List ℚ) (v : WeightSpaceVertex)
    (h : f.getD p 0 ≠ 0) :
    lhsVal p f (updateFacet p idx f v) = 0 := by
  unfold updateFacet lhsVal
  rw [if_neg h]
  have hsum : (∑ j ∈ Finset.range p, v.weight.getD j 0 * f.getD j 0)
      = ∑ j ∈ Finset.range p, f.getD j 0 * v.weight.getD j 0 :=
    Finset.sum_congr rfl (fun j _ => mul_comm _ _)
  rw [hsum]
  show f.getD p 0 * ((-∑ j ∈ Finset.range p, f.getD j 0 * v.weight.getD j 0) / f.getD p 0)
      + ∑ j ∈ Finset.range p, f.getD j 0 * v.weight.getD j 0 = 0
  rw [mul_comm, div_mul_cancel₀ _ h]
  ring

lemma createFacetFromCost_obj (c : List ℚ) (p : ℕ) (hc : c.length = p) :
    (createFacetFromCost c).getD p 0 = -1 := by
  unfold createFacetFromCost
  rw [← hc, List.getD_eq_getElem?_getD, List.getElem?_append_right (le_refl _)]
  simp

/-- C10: idempotence of cuts.  If `isExtremalThorough` accepted a
candidate point (so its facet was appended and the update algorithm ran),
then calling `isExtremalThorough` again with the same point returns
`false` and leaves the facet store, the nodes and the edges of the graph
unchanged: no vertex of the updated polyhedron is obsolete under the
tolerant test for the already-applied facet.  The last hypothesis states
that the flood fill reached every strictly violated node — the
connectivity of the cut-off region, a geometric property of every state
reachable from a true weight space polyhedron, which is not derivable in
the purely combinatorial graph model. -/
theorem isExtremalThorough_idempotent (s : Skeleton) (c : List ℚ)
    (hInv : SkelInv s) (heps : 0 ≤ s.eps) (hc : c.length = s.p)
    (hfirst : (s.isExtremalThorough c).1 = true)
    (hconn : ∀ n, s.findObsoleteNode (createFacetFromCost c) = some n →
      ∀ m ∈ s.nodes,
        isMakingObsolete s.p s.eps (createFacetFromCost c) (s.vmap m) true = true →
        m ∈ (Skeleton.runScan { s with lastReturned := some n }
          (createFacetFromCost c) n).obs) :
    (((s.isExtremalThorough c).2).isExtremalThorough c).1 = false ∧
    (((s.isExtremalThorough c).2).isExtremalThorough c).2.facets
      = ((s.isExtremalThorough c).2).facets ∧
    (((s.isExtremalThorough c).2).isExtremalThorough c).2.nodes
      = ((s.isExtremalThorough c).2).nodes ∧
    (((s.isExtremalThorough c).2).isExtremalThorough c).2.edges
      = ((s.isExtremalThorough c).2).edges := by
  cases hfind : s.findObsoleteNode (createFacetFromCost c) with
  | none =>
    exfalso
    rw [show (s.isExtremalThorough c).1 = false by
      simp only [Skeleton.isExtremalThorough, hfind]] at hfirst
    exact Bool.false_ne_true hfirst
  | some n =>
    have h0 : List.find?
        (fun m => isMakingObsolete s.p s.eps (createFacetFromCost c) (s.vmap m) false)
        s.nodes = some n := hfind
    have hobs_n : isMakingObsolete s.p s.eps (createFacetFromCost c) (s.vmap n) false
        = true := by
      simpa using List.find?_some h0
    have hseedmem : n ∈ s.nodes := List.mem_of_find?_eq_some h0
    have hA2 : (s.isExtremalThorough c).2
        = Skeleton.addFacet { s with lastReturned := some n } (createFacetFromCost c) n := by
      simp only [Skeleton.isExtremalThorough, hfind, hobs_n, if_true]
    have hInvP : SkelInv { s with lastReturned := some n } := hInv
    have hseedP : n ∈ ({ s with lastReturned := some n } : Skeleton).nodes := hseedmem
    obtain ⟨hAp, hAeps, hsurv, hremoved, hclass, hcorner, hedge, hids, huntested⟩ :=
      addFacet_spec { s with lastReturned := some n } (createFacetFromCost c) n hInvP hseedP
    have hScan := runScan_inv { s with lastReturned := some n } (createFacetFromCost c) n
      hseedP hInvP.1
    obtain ⟨hSseed, hSnodes, hSqueue, hSstrict, hSunt, hScuts⟩ := hScan
    have hnegeps : -s.eps ≤ (0 : ℚ) := neg_nonpos.mpr heps
    have hobjc : (createFacetFromCost c).getD s.p 0 = -1 :=
      createFacetFromCost_obj c s.p hc
    have hObsStrict : ∀ m ∈ (Skeleton.runScan { s with lastReturned := some n }
        (createFacetFromCost c) n).obs,
        lhsVal s.p (createFacetFromCost c) (s.vmap m) < 0 := by
      intro m hm
      rcases hSstrict m hm with hm2 | hm2
      · subst hm2
        have h1 := (isMakingObsolete_true_iff s.p s.eps (createFacetFromCost c)
          (s.vmap m)).2.mp hobs_n
        exact lt_of_lt_of_le h1 hnegeps
      · exact (isMakingObsolete_true_iff s.p s.eps (createFacetFromCost c)
          (s.vmap m)).1.mp hm2
    set A := (s.isExtremalThorough c).2 with hAset
    have hnone : ∀ m ∈ A.nodes,
        isMakingObsolete A.p A.eps
          (createFacetFromCost c) (A.vmap m) false = false := by
      intro m hm
      rw [hA2] at hm ⊢
      rw [show (Skeleton.addFacet { s with lastReturned := some n }
          (createFacetFromCost c) n).p = s.p from hAp,
        show (Skeleton.addFacet { s with lastReturned := some n }
          (createFacetFromCost c) n).eps = s.eps from hAeps]
      rcases hclass m hm with ⟨hmem, hnobs, hvm⟩ | ⟨hnot, hint | hcor⟩
      · rw [hvm]
        have hge : 0 ≤ lhsVal s.p (createFacetFromCost c) (s.vmap m) := by
          by_contra hlt
          push_neg at hlt
          exact hnobs (hconn n hfind m hmem
            ((isMakingObsolete_true_iff s.p s.eps (createFacetFromCost c)
              (s.vmap m)).1.mpr hlt))
        rw [Bool.eq_false_iff]
        intro hcon
        have h2 := (isMakingObsolete_true_iff s.p s.eps (createFacetFromCost c)
          (s.vmap m)).2.mp hcon
        exact absurd (lt_of_lt_of_le h2 hnegeps) (not_lt.mpr hge)
      · obtain ⟨e, he, hvm⟩ := hint
        rw [hvm]
        have hcc := cut_classify ⟨hSseed, hSnodes, hSqueue, hSstrict, hSunt, hScuts⟩ he
        have hlobs := hObsStrict _ hcc.2.1
        have hladj : 0 ≤ lhsVal s.p (createFacetFromCost c)
            (s.vmap (cutSplit (Skeleton.runScan { s with lastReturned := some n }
              (createFacetFromCost c) n).obs e).1) := by
          by_contra hlt
          push_neg at hlt
          have := (isMakingObsolete_true_iff s.p s.eps (createFacetFromCost c) _).1.mpr hlt
          rw [hcc.2.2.2] at this
          cases this
        have hz := lhsVal_combine_zero s.p (createFacetFromCost c) s.facets.length
          _ _ hlobs hladj
        rw [Bool.eq_false_iff]
        intro hcon
        have h2 := (isMakingObsolete_true_iff s.p s.eps (createFacetFromCost c) _).2.mp hcon
        rw [hz] at h2
        exact absurd h2 (not_lt.mpr hnegeps)
      · obtain ⟨o, ho, hco, hvm⟩ := hcor
        rw [hvm]
        have hz := lhsVal_updateFacet s.p s.facets.length (createFacetFromCost c)
          (s.vmap o) (by rw [hobjc]; norm_num)
        rw [Bool.eq_false_iff]
        intro hcon
        have h2 := (isMakingObsolete_true_iff s.p s.eps (createFacetFromCost c) _).2.mp hcon
        rw [hz] at h2
        exact absurd h2 (not_lt.mpr hnegeps)
    have hfind2 : A.findObsoleteNode (createFacetFromCost c) = none := by
      refine List.find?_eq_none.mpr ?_
      intro m hm
      rw [hnone m hm]
      simp
    refine ⟨?_, ?_, ?_, ?_⟩ <;>
      simp only [Skeleton.isExtremalThorough, hfind2]

unseal Rat.add Rat.mul Rat.sub Rat.inv in
/-- Witness for C10 on the demo skeleton: the point `(1, 1)` is accepted
once, and the repeated call returns `false` leaving facet store and graph
unchanged. -/
theorem isExtremalThorough_idempotent_witness :
    (demoSkeleton.isExtremalThorough [1, 1]).1 = true ∧
    (((demoSkeleton.isExtremalThorough [1, 1]).2).isExtremalThorough [1, 1]).1 = false ∧
    (((demoSkeleton.isExtremalThorough [1, 1]).2).isExtremalThorough [1, 1]).2.facets
      = ((demoSkeleton.isExtremalThorough [1, 1]).2).facets ∧
    (((demoSkeleton.isExtremalThorough [1, 1]).2).isExtremalThorough [1, 1]).2.nodes
      = ((demoSkeleton.isExtremalThorough [1, 1]).2).nodes ∧
    (((demoSkeleton.isExtremalThorough [1, 1]).2).isExtremalThorough [1, 1]).2.edges
      = ((demoSkeleton.isExtremalThorough [1, 1]).2).edges :=
  ⟨by decide,
   isExtremalThorough_idempotent demoSkeleton [1, 1] (by decide) (by decide) (by decide)
    (by decide)
    (by
      intro n hn m hm hstrict
      have hne : n = 0 := by
        rw [show demoSkeleton.findObsoleteNode (createFacetFromCost [1, 1]) = some 0
          from by decide] at hn
        exact (Option.some_injective _ hn.symm)
      subst hne
      revert hstrict
      revert m hm
      decide)⟩
